import Mathlib

/-!
Verification of the drag-and-drop engine of the tikdo mobile app.

The definitions below are a shallow embedding of the TypeScript source:
* `executeCommit`, `commitDrop`, `cancelPendingDrop` from `src/contexts/DragContext.tsx`,
* `hitTest`, `checkAutoScroll` and the pan-gesture handlers from
  `src/components/Drag/DragItemComponent.tsx`,
* `handleAddTask` from the Inbox screen.

Screen coordinates and scroll offsets are embedded as rationals (JS numbers
used only through `+`, `-`, `*`, `/2`, `*0.3` and comparisons); `order`
fields are embedded as integers (the add-flow writes `minOrder - 1`, which
can go negative).  JS exceptions are embedded as `Option.none`.
-/

/-- A task record (`TaskItem` = `DragItem` plus scheduling metadata). -/
structure TaskItem where
  taskId : String
  listId : String
  order : Int
  title : String
  description : String
  scheduledTime : Option String
  timeSlot : Option String
deriving DecidableEq

/-- The patch applied to a task moved onto the Today list
(`todayPatch` parameter of `executeCommit`). -/
structure TodayPatch where
  title : String
  description : String
  scheduledTime : Option String
  timeSlot : Option String
deriving DecidableEq

/-- JS `arr.sort((a, b) => a.order - b.order)`: stable ascending sort of a
task array by its `order` field (the `byOrder` helper of `executeCommit`).
JS array sort is stable, and a stable sort under a fixed comparator is a
unique function of its input, so it is embedded as the (stable, structural)
insertion sort. -/
def byOrder (arr : List TaskItem) : List TaskItem :=
  arr.insertionSort (fun a b => a.order ≤ b.order)

/-- JS `updated[updated.findIndex((t) => t.taskId === task.taskId)].order = o`:
sets the `order` field of the first task with the given id, leaving every
other element untouched (no-op when the id is absent; in `executeCommit` the
id is always present). -/
def setOrderFirst (acc : List TaskItem) (tid : String) (o : Int) : List TaskItem :=
  match acc with
  | [] => []
  | t :: rest =>
      if t.taskId = tid then { t with order := o } :: rest
      else t :: setOrderFirst rest tid o

/-- JS `arr.forEach((task, i) => { updated[...findIndex...].order = i })`
with the running index starting at `i`: writes fresh sequential order values
back into the collection, one `setOrderFirst` per element of `arr`. -/
def writeOrders (acc : List TaskItem) (arr : List TaskItem) (i : Nat) : List TaskItem :=
  match arr with
  | [] => acc
  | task :: rest => writeOrders (setOrderFirst acc task.taskId (i : Int)) rest (i + 1)

/-- JS `l.splice(i, 0, x)`: inserts `x` at index `i` (clamped to the length,
exactly as `splice` clamps). -/
def spliceIn (l : List TaskItem) (i : Nat) (x : TaskItem) : List TaskItem :=
  l.take i ++ x :: l.drop i

/-- Applies the optional Today patch onto the moved task
(`task.title = todayPatch.title; ...` block of `executeCommit`). -/
def applyPatch (t : TaskItem) (p : Option TodayPatch) : TaskItem :=
  match p with
  | none => t
  | some patch =>
      { t with
        title := patch.title
        description := patch.description
        scheduledTime := patch.scheduledTime
        timeSlot := patch.timeSlot }

/-- JS `updated[draggedGlobalIdx].listId = targetListId` followed by the
optional patch: rewrites the first task with the given id. -/
def applyMoveFirst (acc : List TaskItem) (tid : String) (target : String)
    (p : Option TodayPatch) : List TaskItem :=
  match acc with
  | [] => []
  | t :: rest =>
      if t.taskId = tid then applyPatch { t with listId := target } p :: rest
      else t :: applyMoveFirst rest tid target p

/-- The state mutation of a completed drop — `executeCommit` in
`src/contexts/DragContext.tsx`.  Returns `none` exactly when the JS function
throws (the source task id is absent from the collection: the same-list
branch dereferences `undefined` inside its `forEach`, the cross-list branch
assigns to `updated[-1].listId`). -/
def executeCommit (tasks : List TaskItem) (sourceTaskId sourceListId targetListId
    targetSlot : String) (todayPatch : Option TodayPatch) : Option (List TaskItem) :=
  if sourceListId = targetListId then
    -- SAME-LIST REORDER
    let otherTasks := byOrder (tasks.filter
      (fun t => t.listId = sourceListId ∧ t.taskId ≠ sourceTaskId))
    match tasks.find? (fun t => t.taskId = sourceTaskId) with
    | none => none
    | some dragged =>
        let isEnd := targetSlot = "end:" ++ targetListId
        let spliceAt := if isEnd then some otherTasks.length
          else otherTasks.findIdx? (fun t => t.taskId = targetSlot)
        -- JS: `spliceAt < 0 ? otherTasks.length : spliceAt`
        let insertAt := spliceAt.getD otherTasks.length
        let newOrderArr := spliceIn otherTasks insertAt dragged
        some (writeOrders tasks newOrderArr 0)
  else
    -- CROSS-LIST MOVE
    match tasks.findIdx? (fun t => t.taskId = sourceTaskId) with
    | none => none
    | some _ =>
        -- 1. move the dragged task to the target list (plus optional patch)
        let updated1 := applyMoveFirst tasks sourceTaskId targetListId todayPatch
        -- 2. re-index the source list
        let sourceRemaining := byOrder (updated1.filter (fun t => t.listId = sourceListId))
        let updated2 := writeOrders updated1 sourceRemaining 0
        -- 3. splice the dragged task into the target list and re-index it
        let targetExisting := byOrder (updated2.filter
          (fun t => t.listId = targetListId ∧ t.taskId ≠ sourceTaskId))
        let isEnd := targetSlot = "end:" ++ targetListId
        let spliceAt := if isEnd then some targetExisting.length
          else targetExisting.findIdx? (fun t => t.taskId = targetSlot)
        let insertAt := spliceAt.getD targetExisting.length
        match updated2.find? (fun t => t.taskId = sourceTaskId) with
        | none => none  -- unreachable: ids are never removed
        | some dragged2 =>
            let newTarget := spliceIn targetExisting insertAt dragged2
            some (writeOrders updated2 newTarget 0)

/-- The listId of the "Today" list (`TODAY_LIST_ID` in `DragContext.tsx`). -/
def TODAY_LIST_ID : String := "listToday002"

/-- The four drop parameters saved when a Today drop is intercepted. -/
structure PendingDrop where
  sourceTaskId : String
  sourceListId : String
  targetListId : String
  targetSlot : String
deriving DecidableEq

/-- The provider state relevant to the pending-drop intercept: the task
collection (`tasks` React state) and the pending drop (`pendingDrop`). -/
structure AppState where
  tasks : List TaskItem
  pendingDrop : Option PendingDrop
deriving DecidableEq

/-- Public drop entry point `commitDrop`: a drop onto the Today list is
intercepted and stored as pending (no task mutation); any other drop runs
`executeCommit` immediately.  `none` when `executeCommit` throws. -/
def commitDrop (st : AppState) (sourceTaskId sourceListId targetListId
    targetSlot : String) : Option AppState :=
  if targetListId = TODAY_LIST_ID then
    let pd := PendingDrop.mk sourceTaskId sourceListId targetListId targetSlot
    some { st with pendingDrop := some pd }
  else
    (executeCommit st.tasks sourceTaskId sourceListId targetListId targetSlot none).map
      (fun ts => { st with tasks := ts })

/-- `cancelPendingDrop`: discards the pending drop with no task mutation. -/
def cancelPendingDrop (st : AppState) : AppState :=
  { st with pendingDrop := none }

/-- `confirmPendingDrop`: finalises the pending drop by running
`executeCommit` with the saved parameters plus the today patch, then clears
the pending state.  `none` when there is nothing to confirm the state is
returned unchanged, mirroring the early `return`. -/
def confirmPendingDrop (st : AppState) (title description : String)
    (scheduledTime : Option String) (timeSlot : Option String) : Option AppState :=
  match st.pendingDrop with
  | none => some st
  | some pd =>
      (executeCommit st.tasks pd.sourceTaskId pd.sourceListId pd.targetListId
        pd.targetSlot (some ⟨title, description, scheduledTime, timeSlot⟩)).map
        (fun ts => { tasks := ts, pendingDrop := none })

/-- `handleAddTask` of the Inbox screen: appends the new task with order
`minOrder - 1`, where `minOrder` is the least existing order in the target
list (`Math.min(...listTasks.map((t) => t.order))`), or `0` for an empty
list.  The `getD 0` default is unreachable: `min?` is `some` on the
nonempty branch. -/
def handleAddTask (prev : List TaskItem) (task : TaskItem) : List TaskItem :=
  let listTasks := prev.filter (fun t => t.listId = task.listId)
  let minOrder : Int :=
    if listTasks.length > 0 then ((listTasks.map (fun t => t.order)).min?).getD 0
    else 0
  prev ++ [{ task with order := minOrder - 1 }]

/-- An item layout registry entry (`ItemLayout` in `types/dnd.types`). -/
structure ItemLayout where
  taskId : String
  listId : String
  pageY : ℚ
  height : ℚ
  order : Int
  scrollYAtMeasure : ℚ
deriving DecidableEq

/-- A list layout registry entry (`ListLayout` in `types/dnd.types`). -/
structure ListLayout where
  listId : String
  pageY : ℚ
  height : ℚ
  scrollYAtMeasure : ℚ
deriving DecidableEq

/-- The `livePageY` helper of `hitTest`: corrects a stored `pageY` for the
scroll that happened since the entry was measured. -/
def livePageY (scrollNow pageY scrollYAtMeasure : ℚ) : ℚ :=
  pageY - (scrollNow - scrollYAtMeasure)

/-- Corrected screen Y of an item layout entry. -/
def itemLiveY (scrollNow : ℚ) (it : ItemLayout) : ℚ :=
  livePageY scrollNow it.pageY it.scrollYAtMeasure

/-- The list-boundary condition of `hitTest`'s loop: the corrected span
`[layoutTop, layoutTop + height]` of a list layout contains `fingerY`. -/
def listSpanContains (scrollNow : ℚ) (layout : ListLayout) (fingerY : ℚ) : Prop :=
  fingerY ≥ livePageY scrollNow layout.pageY layout.scrollYAtMeasure ∧
  fingerY ≤ livePageY scrollNow layout.pageY layout.scrollYAtMeasure + layout.height

instance (scrollNow : ℚ) (layout : ListLayout) (fingerY : ℚ) :
    Decidable (listSpanContains scrollNow layout fingerY) :=
  inferInstanceAs (Decidable (_ ∧ _))

/-- The corrected vertical midpoint of an item layout entry
(`livePageY(item) + item.height / 2` in `hitTest`). -/
def itemMidY (scrollNow : ℚ) (it : ItemLayout) : ℚ :=
  itemLiveY scrollNow it + it.height / 2

/-- The list-boundary loop of `hitTest`: the first registered list layout
whose corrected span `[top, top + height]` contains `fingerY` (the loop
`break`s at the first hit). -/
def findListAt (layouts : List ListLayout) (scrollNow fingerY : ℚ) : Option String :=
  match layouts with
  | [] => none
  | layout :: rest =>
      if listSpanContains scrollNow layout fingerY then some layout.listId
      else findListAt rest scrollNow fingerY

/-- The slot loop of `hitTest`: walking the sorted candidates top to bottom,
the slot is the first item whose corrected midpoint lies strictly below the
finger, else the end-of-list sentinel. -/
def firstBelowMid (items : List ItemLayout) (scrollNow fingerY : ℚ)
    (foundListId : String) : String :=
  match items with
  | [] => "end:" ++ foundListId
  | it :: rest =>
      if fingerY < itemMidY scrollNow it then it.taskId
      else firstBelowMid rest scrollNow fingerY foundListId

/-- The hit-test worklet of `DragItemComponent`: resolves a finger position
to the list under the finger and the insertion slot inside it.  Returns the
pair written to `(activeDropListId, activeDropSlot)`; the empty-string slot
is the "no slot" value. -/
def hitTest (itemLayouts : List ItemLayout) (listLayouts : List ListLayout)
    (scrollNow : ℚ) (draggedId : Option String) (fingerY : ℚ) :
    Option String × String :=
  match findListAt listLayouts scrollNow fingerY with
  | none => (none, "")
  | some foundListId =>
      let listItems := (itemLayouts.filter
          (fun it => it.listId = foundListId ∧ some it.taskId ≠ draggedId)).insertionSort
        (fun a b => itemLiveY scrollNow a ≤ itemLiveY scrollNow b)
      (some foundListId, firstBelowMid listItems scrollNow fingerY foundListId)

/-- The measured scroll-viewport rectangle (`measure(scrollViewRef)`). -/
structure ScrollRect where
  pageY : ℚ
  height : ℚ
deriving DecidableEq

/-- The auto-scroll worklet `checkAutoScroll`: returns the scroll offset the
viewport is told to scroll to (`scrollTo(..., currentScrollY ± speed)`), or
the unchanged offset when no scroll is issued (`measure` returned null, or
the finger is between the two 80-pixel thresholds). -/
def checkAutoScroll (scrollMeasure : Option ScrollRect) (fingerY scrollY : ℚ) : ℚ :=
  match scrollMeasure with
  | none => scrollY
  | some m =>
      let topThreshold := m.pageY + 80
      let bottomThreshold := m.pageY + m.height - 80
      if fingerY < topThreshold then scrollY - (topThreshold - fingerY) * (3 / 10)
      else if fingerY > bottomThreshold then
        scrollY + (fingerY - bottomThreshold) * (3 / 10)
      else scrollY

/-- Spec-side definition (from the spec's words, for comparison with the
code): the finger is inside the fixed-size 80-pixel hot zone at the top
edge of the viewport. -/
def inTopHotZone (m : ScrollRect) (fingerY : ℚ) : Prop :=
  m.pageY ≤ fingerY ∧ fingerY < m.pageY + 80

/-- Spec-side definition (from the spec's words): the finger is inside the
fixed-size 80-pixel hot zone at the bottom edge of the viewport. -/
def inBottomHotZone (m : ScrollRect) (fingerY : ℚ) : Prop :=
  m.pageY + m.height - 80 < fingerY ∧ fingerY ≤ m.pageY + m.height

/-! ### Derived notions used in the statements -/

/-- The task identifiers of a collection, in collection order. -/
def idsOf (ts : List TaskItem) : List String :=
  ts.map (fun t => t.taskId)

/-- The tasks of a collection belonging to list `L` (`listId === L`). -/
def tasksIn (ts : List TaskItem) (L : String) : List TaskItem :=
  ts.filter (fun t => t.listId = L)

/-- The `order` values of the tasks of list `L`, in collection order. -/
def ordersIn (ts : List TaskItem) (L : String) : List Int :=
  (tasksIn ts L).map (fun t => t.order)

/-- The list `[0, 1, ..., n-1]` as integers. -/
def rangeInt (n : Nat) : List Int :=
  (List.range n).map Int.ofNat

/-- Order density for list `L`: the `order` values of the tasks with
`listId = L` are exactly `{0, 1, ..., n-1}` — no gaps, no duplicates. -/
def denseOrders (ts : List TaskItem) (L : String) : Prop :=
  (ordersIn ts L).Perm (rangeInt (tasksIn ts L).length)

/-- The first task of the collection with the given id (JS
`tasks.find((t) => t.taskId === tid)`). -/
def getTask (ts : List TaskItem) (tid : String) : Option TaskItem :=
  ts.find? (fun t => t.taskId = tid)

/-- The index of the first task with the given id (JS
`arr.findIndex((t) => t.taskId === tid)`, with `none` for `-1`). -/
def idIndexIn (arr : List TaskItem) (tid : String) : Option Nat :=
  arr.findIdx? (fun t => t.taskId = tid)

/-! ### The pan-gesture handlers of `DragItemComponent` -/

/-- The result of `measure()` on the UI thread (`null` embeds as `none` at
the call sites). -/
structure MeasuredRect where
  pageX : ℚ
  pageY : ℚ
  height : ℚ
  width : ℚ
deriving DecidableEq

/-- A pan-gesture update event (the fields the `onUpdate` worklet reads). -/
structure PanEvent where
  translationX : ℚ
  translationY : ℚ
  absoluteY : ℚ
deriving DecidableEq

/-- The shared drag state read and written by the gesture worklets of one
`DragItemComponent`: the provider's shared values plus the component's own
`selfOpacity` and `previousSlot`. -/
structure GState where
  selfOpacity : ℚ
  previousSlot : String
  isDragging : Bool
  draggedTaskId : Option String
  draggedFromListId : Option String
  ghostX : ℚ
  ghostY : ℚ
  ghostOriginX : ℚ
  ghostOriginY : ℚ
  ghostHeight : ℚ
  ghostWidth : ℚ
  ghostTitle : String
  ghostDescription : String
  activeDropListId : Option String
  activeDropSlot : String
  scrollEnabled : Bool
  currentScrollY : ℚ
  itemLayouts : List ItemLayout
  listLayouts : List ListLayout
deriving DecidableEq

/-- Running the `hitTest` worklet against the shared state: writes the
resolved list and slot into `(activeDropListId, activeDropSlot)`. -/
def runHitTest (s : GState) (fingerY : ℚ) : GState :=
  let r := hitTest s.itemLayouts s.listLayouts s.currentScrollY s.draggedTaskId fingerY
  { s with activeDropListId := r.1, activeDropSlot := r.2 }

/-- `panGesture.onBegin`: pre-measures the item and seeds the ghost origin
and size (no-op when `measure` returned null). -/
def onBeginH (measured : Option MeasuredRect) (s : GState) : GState :=
  match measured with
  | none => s
  | some m =>
      { s with ghostOriginX := m.pageX, ghostOriginY := m.pageY,
               ghostHeight := m.height, ghostWidth := m.width }

/-- `panGesture.onStart`: records the dragged identity, shows the ghost over
the item, hides the item, disables scrolling, runs the initial hit-test at
the ghost-origin midpoint and seeds the slot tracker.  The pickup haptic is
a one-way signal to the RN thread and does not touch this state. -/
def onStartH (taskId listId title : String) (description : Option String)
    (s : GState) : GState :=
  let s1 := { s with
    draggedTaskId := some taskId
    draggedFromListId := some listId
    isDragging := true
    ghostX := s.ghostOriginX
    ghostY := s.ghostOriginY
    ghostTitle := title
    ghostDescription := description.getD ""
    selfOpacity := 0
    scrollEnabled := false }
  let s2 := runHitTest s1 (s1.ghostOriginY + s1.ghostHeight / 2)
  { s2 with previousSlot := s2.activeDropSlot }

/-- `panGesture.onUpdate`: moves the ghost to origin + cumulative delta,
re-runs the hit-test at the live finger position, and advances the slot
tracker when the slot changed (the slot-change haptic is a one-way RN-thread
signal).  `checkAutoScroll` issues a `scrollTo`; the resulting offset change
arrives through the scroll listener, not through this handler. -/
def onUpdateH (ev : PanEvent) (s : GState) : GState :=
  let s1 := { s with
    ghostX := s.ghostOriginX + ev.translationX
    ghostY := s.ghostOriginY + ev.translationY }
  let s2 := runHitTest s1 ev.absoluteY
  if s2.activeDropSlot ≠ s2.previousSlot ∧ s2.activeDropSlot ≠ "" then
    { s2 with previousSlot := s2.activeDropSlot }
  else s2

/-- `panGesture.onEnd`: on a valid drop hides the ghost and schedules
`commitDrop` onto the RN thread (a one-way hand-off); on an invalid drop
springs the ghost back to its origin (the spring completion callback clears
`isDragging`, folded into this step).  Either way scrolling is re-enabled
and the drop-target indicators are cleared. -/
def onEndH (s : GState) : GState :=
  let s1 :=
    if s.activeDropListId ≠ none ∧ s.activeDropSlot ≠ "" ∧
        s.draggedTaskId ≠ none ∧ s.draggedFromListId ≠ none then
      { s with isDragging := false }
    else
      { s with ghostX := s.ghostOriginX, ghostY := s.ghostOriginY,
               isDragging := false }
  { s1 with scrollEnabled := true, activeDropListId := none, activeDropSlot := "" }

/-- `panGesture.onFinalize`: safety cleanup — restores the item's
visibility (`withTiming` to opacity 1, folded to its final value) and clears
the dragged identity, however the gesture ended. -/
def onFinalizeH (s : GState) : GState :=
  { s with selfOpacity := 1, draggedTaskId := none, draggedFromListId := none }

/-- How a pan gesture can be torn down. -/
inductive GestureEnding
  | released
  | cancelledActive
  | cancelledBefore
deriving DecidableEq

/-- Gesture-library invocation discipline (react-native-gesture-handler v2,
under which `DragItemComponent` registers its callbacks): `onBegin` runs
when touches begin; once the long press activates, `onStart` runs, then
`onUpdate` per move event; when a previously-activated gesture leaves the
active state — normal release (`released`) and platform cancellation
(`cancelledActive`) alike — `onEnd` runs (with a success flag the source
callback ignores), and `onFinalize` always runs last.  A gesture torn down
before activation (`cancelledBefore`) runs only `onBegin` and `onFinalize`:
`onStart`, `onUpdate` and `onEnd` never fire. -/
def runGesture (taskId listId title : String) (description : Option String)
    (measured : Option MeasuredRect) (s0 : GState) (moves : List PanEvent) :
    GestureEnding → GState
  | .cancelledBefore => onFinalizeH (onBeginH measured s0)
  | _ =>
      onFinalizeH (onEndH (moves.foldl (fun s ev => onUpdateH ev s)
        (onStartH taskId listId title description (onBeginH measured s0))))

/-! ### Pointwise descriptions of the imperative write-backs -/

/-- Pointwise form of `setOrderFirst` (valid under unique ids): update the
order of the task with the given id. -/
def orderSet (tid : String) (o : Int) (t : TaskItem) : TaskItem :=
  if t.taskId = tid then { t with order := o } else t

/-- Pointwise form of `writeOrders` (valid under unique ids): a task's order
becomes `i +` its index in `arr` when its id occurs there, else the task is
unchanged. -/
def orderPatch (arr : List TaskItem) (i : Nat) (t : TaskItem) : TaskItem :=
  match idIndexIn arr t.taskId with
  | some j => { t with order := ((i + j : Nat) : Int) }
  | none => t

/-- Pointwise form of `applyMoveFirst` (valid under unique ids). -/
def movePatch (X tg : String) (p : Option TodayPatch) (t : TaskItem) : TaskItem :=
  if t.taskId = X then applyPatch { t with listId := tg } p else t

/-! ### Basic lemmas -/

theorem taskId_applyPatch (t : TaskItem) (p : Option TodayPatch) :
    (applyPatch t p).taskId = t.taskId := by
  cases p <;> rfl

theorem order_applyPatch (t : TaskItem) (p : Option TodayPatch) :
    (applyPatch t p).order = t.order := by
  cases p <;> rfl

theorem taskId_orderSet (tid : String) (o : Int) (t : TaskItem) :
    (orderSet tid o t).taskId = t.taskId := by
  unfold orderSet; split <;> rfl

theorem listId_orderSet (tid : String) (o : Int) (t : TaskItem) :
    (orderSet tid o t).listId = t.listId := by
  unfold orderSet; split <;> rfl

theorem taskId_orderPatch (arr : List TaskItem) (i : Nat) (t : TaskItem) :
    (orderPatch arr i t).taskId = t.taskId := by
  unfold orderPatch; split <;> rfl

theorem listId_orderPatch (arr : List TaskItem) (i : Nat) (t : TaskItem) :
    (orderPatch arr i t).listId = t.listId := by
  unfold orderPatch; split <;> rfl

theorem taskId_movePatch (X tg : String) (p : Option TodayPatch) (t : TaskItem) :
    (movePatch X tg p t).taskId = t.taskId := by
  unfold movePatch; split
  · exact taskId_applyPatch _ _
  · rfl

theorem idsOf_map_of_preserved {f : TaskItem → TaskItem}
    (hf : ∀ t, (f t).taskId = t.taskId) (l : List TaskItem) :
    idsOf (l.map f) = idsOf l := by
  unfold idsOf
  rw [List.map_map]
  exact List.map_congr_left (fun t _ => hf t)

theorem idsOf_setOrderFirst (acc : List TaskItem) (tid : String) (o : Int) :
    idsOf (setOrderFirst acc tid o) = idsOf acc := by
  induction acc with
  | nil => rfl
  | cons t rest ih =>
      unfold setOrderFirst
      split <;> simp [idsOf] at ih ⊢ <;> exact ih

theorem idsOf_writeOrders (arr : List TaskItem) :
    ∀ (acc : List TaskItem) (i : Nat), idsOf (writeOrders acc arr i) = idsOf acc := by
  induction arr with
  | nil => intro acc i; rfl
  | cons a rest ih =>
      intro acc i
      unfold writeOrders
      rw [ih, idsOf_setOrderFirst]

theorem idsOf_applyMoveFirst (acc : List TaskItem) (tid target : String)
    (p : Option TodayPatch) :
    idsOf (applyMoveFirst acc tid target p) = idsOf acc := by
  induction acc with
  | nil => rfl
  | cons t rest ih =>
      unfold applyMoveFirst
      split <;> simp [idsOf, taskId_applyPatch] at ih ⊢ <;> exact ih

theorem mem_idsOf {ts : List TaskItem} {t : TaskItem} (h : t ∈ ts) :
    t.taskId ∈ idsOf ts :=
  List.mem_map_of_mem _ h

theorem eq_of_mem_of_taskId_eq {ts : List TaskItem} {a b : TaskItem}
    (hn : (idsOf ts).Nodup) (ha : a ∈ ts) (hb : b ∈ ts)
    (hid : a.taskId = b.taskId) : a = b :=
  List.inj_on_of_nodup_map hn ha hb hid

theorem getTask_of_mem {ts : List TaskItem} {t : TaskItem}
    (hn : (idsOf ts).Nodup) (h : t ∈ ts) : getTask ts t.taskId = some t := by
  cases hfind : getTask ts t.taskId with
  | none =>
      unfold getTask at hfind
      rw [List.find?_eq_none] at hfind
      exact absurd (by simp : decide (t.taskId = t.taskId) = true) (hfind t h)
  | some u =>
      have hu : u ∈ ts := List.mem_of_find?_eq_some hfind
      have hid : u.taskId = t.taskId := by
        have := List.find?_some hfind
        simpa using this
      rw [eq_of_mem_of_taskId_eq hn hu h hid]

theorem taskId_of_getTask {ts : List TaskItem} {tid : String} {t : TaskItem}
    (h : getTask ts tid = some t) : t.taskId = tid := by
  have := List.find?_some h
  simpa using this

theorem mem_of_getTask {ts : List TaskItem} {tid : String} {t : TaskItem}
    (h : getTask ts tid = some t) : t ∈ ts :=
  List.mem_of_find?_eq_some h

/-! ### Lemmas about `idIndexIn` -/

theorem findIdx?_start_shift {α : Type} (q : α → Bool) :
    ∀ (l : List α) (i : Nat),
      List.findIdx? q l (i + 1) = (List.findIdx? q l i).map (fun j => j + 1) := by
  intro l
  induction l with
  | nil => intro i; rfl
  | cons a rest ih =>
      intro i
      rw [List.findIdx?_cons, List.findIdx?_cons]
      by_cases h : q a
      · simp [h]
      · simp [h, ih (i + 1)]

theorem idIndexIn_cons (a : TaskItem) (l : List TaskItem) (tid : String) :
    idIndexIn (a :: l) tid =
      if a.taskId = tid then some 0 else (idIndexIn l tid).map (fun j => j + 1) := by
  unfold idIndexIn
  rw [List.findIdx?_cons]
  by_cases h : a.taskId = tid
  · simp [h]
  · simp [h, findIdx?_start_shift]

theorem idIndexIn_eq_none {l : List TaskItem} {tid : String}
    (h : tid ∉ idsOf l) : idIndexIn l tid = none := by
  unfold idIndexIn
  rw [List.findIdx?_eq_none_iff]
  intro t ht
  simp only [decide_eq_false_iff_not]
  intro heq
  exact h (heq ▸ mem_idsOf ht)

theorem idIndexIn_eq_some_of_mem {l : List TaskItem} {tid : String}
    (h : tid ∈ idsOf l) : ∃ i, idIndexIn l tid = some i := by
  cases hi : idIndexIn l tid with
  | none =>
      unfold idIndexIn at hi
      rw [List.findIdx?_eq_none_iff] at hi
      obtain ⟨t, ht, hid⟩ := List.mem_map.mp h
      have := hi t ht
      simp [hid] at this
  | some i => exact ⟨i, rfl⟩

theorem idIndexIn_eq_some_split {l : List TaskItem} {tid : String} {i : Nat}
    (h : idIndexIn l tid = some i) :
    ∃ u y v, l = u ++ y :: v ∧ u.length = i ∧ (∀ z ∈ u, z.taskId ≠ tid) ∧
      y.taskId = tid := by
  induction l generalizing i with
  | nil => simp [idIndexIn] at h
  | cons a rest ih =>
      rw [idIndexIn_cons] at h
      by_cases ha : a.taskId = tid
      · simp only [ha, if_true] at h
        refine ⟨[], a, rest, rfl, ?_, by simp, ha⟩
        simpa using h
      · simp only [ha, if_false] at h
        cases hr : idIndexIn rest tid with
        | none => rw [hr] at h; exact absurd h (by simp)
        | some j =>
            rw [hr] at h
            have h' : j + 1 = i := by simpa using h
            obtain ⟨u, y, v, hl, hlen, hu, hy⟩ := ih hr
            refine ⟨a :: u, y, v, by simp [hl], ?_, ?_, hy⟩
            · simp only [List.length_cons, hlen, h']
            · intro z hz
              rcases List.mem_cons.mp hz with rfl | hz'
              · exact ha
              · exact hu z hz'

theorem idIndexIn_append (u v : List TaskItem) (tid : String) :
    idIndexIn (u ++ v) tid =
      match idIndexIn u tid with
      | some j => some j
      | none => (idIndexIn v tid).map (fun j => j + u.length) := by
  induction u with
  | nil => simp [idIndexIn]
  | cons a rest ih =>
      rw [List.cons_append, idIndexIn_cons, idIndexIn_cons]
      by_cases h : a.taskId = tid
      · simp [h]
      · simp only [h, if_false, ih]
        cases hr : idIndexIn rest tid with
        | some j => simp
        | none =>
            cases hv : idIndexIn v tid with
            | none => simp
            | some j => simp [Nat.add_assoc]

theorem mem_of_idIndexIn {l : List TaskItem} {tid : String} {i : Nat}
    (h : idIndexIn l tid = some i) : tid ∈ idsOf l := by
  obtain ⟨u, y, v, hl, _, _, hy⟩ := idIndexIn_eq_some_split h
  subst hl
  exact hy ▸ mem_idsOf (by simp)

/-! ### Map normal forms of the first-match write-backs (under unique ids) -/

theorem setOrderFirst_eq_map {acc : List TaskItem} (hn : (idsOf acc).Nodup)
    (tid : String) (o : Int) :
    setOrderFirst acc tid o = acc.map (orderSet tid o) := by
  induction acc with
  | nil => rfl
  | cons t rest ih =>
      have hn' : (idsOf rest).Nodup := (List.nodup_cons.mp hn).2
      have hnm : t.taskId ∉ idsOf rest := (List.nodup_cons.mp hn).1
      unfold setOrderFirst
      by_cases ht : t.taskId = tid
      · simp only [ht, if_true, List.map_cons]
        have h1 : orderSet tid o t = { t with order := o } := by
          simp [orderSet, ht]
        have h2 : rest.map (orderSet tid o) = rest := by
          have hcg : rest.map (orderSet tid o) = rest.map id :=
            List.map_congr_left (fun s hs => by
              have hne : s.taskId ≠ tid := fun hcon => hnm (by
                rw [ht, ← hcon]; exact mem_idsOf hs)
              simp [orderSet, hne])
          simpa using hcg
        rw [h1, h2, ht]
      · simp only [ht, if_false, List.map_cons]
        have h1 : orderSet tid o t = t := by simp [orderSet, ht]
        rw [h1, ih hn']

theorem applyMoveFirst_eq_map {acc : List TaskItem} (hn : (idsOf acc).Nodup)
    (X tg : String) (p : Option TodayPatch) :
    applyMoveFirst acc X tg p = acc.map (movePatch X tg p) := by
  induction acc with
  | nil => rfl
  | cons t rest ih =>
      have hn' : (idsOf rest).Nodup := (List.nodup_cons.mp hn).2
      have hnm : t.taskId ∉ idsOf rest := (List.nodup_cons.mp hn).1
      unfold applyMoveFirst
      by_cases ht : t.taskId = X
      · simp only [ht, if_true, List.map_cons]
        have h1 : movePatch X tg p t = applyPatch { t with listId := tg } p := by
          simp [movePatch, ht]
        have h2 : rest.map (movePatch X tg p) = rest := by
          have hcg : rest.map (movePatch X tg p) = rest.map id :=
            List.map_congr_left (fun s hs => by
              have hne : s.taskId ≠ X := fun hcon => hnm (by
                rw [ht, ← hcon]; exact mem_idsOf hs)
              simp [movePatch, hne])
          simpa using hcg
        rw [h1, h2, ht]
      · simp only [ht, if_false, List.map_cons]
        have h1 : movePatch X tg p t = t := by simp [movePatch, ht]
        rw [h1, ih hn']

theorem writeOrders_eq_map {arr : List TaskItem} (harr : (idsOf arr).Nodup) :
    ∀ {acc : List TaskItem}, (idsOf acc).Nodup → ∀ (i : Nat),
      writeOrders acc arr i = acc.map (orderPatch arr i) := by
  induction arr with
  | nil =>
      intro acc _ i
      unfold writeOrders
      have : acc.map (orderPatch [] i) = acc.map id :=
        List.map_congr_left (fun t _ => by simp [orderPatch, idIndexIn])
      simp [this]
  | cons a rest ih =>
      intro acc hacc i
      have harr' : (idsOf rest).Nodup := (List.nodup_cons.mp harr).2
      have hanm : a.taskId ∉ idsOf rest := (List.nodup_cons.mp harr).1
      unfold writeOrders
      rw [setOrderFirst_eq_map hacc a.taskId (i : Int)]
      have hacc' : (idsOf (acc.map (orderSet a.taskId (i : Int)))).Nodup := by
        rw [idsOf_map_of_preserved (taskId_orderSet a.taskId (i : Int))]
        exact hacc
      rw [ih harr' hacc' (i + 1), List.map_map]
      apply List.map_congr_left
      intro t _
      simp only [Function.comp_apply]
      by_cases ht : t.taskId = a.taskId
      · have h1 : orderSet a.taskId (i : Int) t = { t with order := (i : Int) } := by
          simp [orderSet, ht]
        have h2 : idIndexIn rest t.taskId = none :=
          idIndexIn_eq_none (ht ▸ hanm)
        have h3 : idIndexIn (a :: rest) t.taskId = some 0 := by
          rw [idIndexIn_cons]
          simp [ht]
        simp [orderPatch, h1, h2, h3]
      · have h1 : orderSet a.taskId (i : Int) t = t := by simp [orderSet, ht]
        have h3 : idIndexIn (a :: rest) t.taskId =
            (idIndexIn rest t.taskId).map (fun j => j + 1) := by
          have hne : ¬(a.taskId = t.taskId) := fun h => ht h.symm
          rw [idIndexIn_cons]
          simp [hne]
        rw [h1]
        unfold orderPatch
        rw [h3]
        cases hr : idIndexIn rest t.taskId with
        | none => simp
        | some j =>
            simp only [Option.map_some]
            have : i + 1 + j = i + (j + 1) := by omega
            simp [this]

/-! ### Lemmas about `byOrder`, filters and `spliceIn` -/

theorem byOrder_perm (l : List TaskItem) : (byOrder l).Perm l :=
  List.perm_insertionSort _ l

theorem mem_byOrder {a : TaskItem} {l : List TaskItem} : a ∈ byOrder l ↔ a ∈ l :=
  (byOrder_perm l).mem_iff

theorem idsOf_byOrder_perm (l : List TaskItem) :
    (idsOf (byOrder l)).Perm (idsOf l) :=
  (byOrder_perm l).map _

theorem nodup_idsOf_byOrder {l : List TaskItem} (h : (idsOf l).Nodup) :
    (idsOf (byOrder l)).Nodup :=
  (idsOf_byOrder_perm l).symm.nodup h

theorem nodup_idsOf_filter {ts : List TaskItem} (h : (idsOf ts).Nodup)
    (p : TaskItem → Bool) : (idsOf (ts.filter p)).Nodup := by
  have hs : ((ts.filter p).map (fun t => t.taskId)).Sublist
      (ts.map (fun t => t.taskId)) :=
    List.Sublist.map (fun t => t.taskId) (List.filter_sublist ts)
  exact hs.nodup h

theorem spliceIn_perm (l : List TaskItem) (i : Nat) (x : TaskItem) :
    (spliceIn l i x).Perm (x :: l) := by
  unfold spliceIn
  have h : (l.take i ++ x :: l.drop i).Perm (x :: (l.take i ++ l.drop i)) :=
    @List.perm_middle TaskItem x (l.take i) (l.drop i)
  rw [List.take_append_drop] at h
  exact h

theorem mem_spliceIn {a x : TaskItem} {l : List TaskItem} {i : Nat} :
    a ∈ spliceIn l i x ↔ a = x ∨ a ∈ l := by
  rw [(spliceIn_perm l i x).mem_iff, List.mem_cons]

theorem length_spliceIn (l : List TaskItem) (i : Nat) (x : TaskItem) :
    (spliceIn l i x).length = l.length + 1 := by
  rw [(spliceIn_perm l i x).length_eq, List.length_cons]

theorem nodup_idsOf_spliceIn {l : List TaskItem} {x : TaskItem} {i : Nat}
    (hl : (idsOf l).Nodup) (hx : x.taskId ∉ idsOf l) :
    (idsOf (spliceIn l i x)).Nodup := by
  have hperm : (idsOf (spliceIn l i x)).Perm (idsOf (x :: l)) :=
    (spliceIn_perm l i x).map _
  apply hperm.symm.nodup
  exact List.nodup_cons.mpr ⟨hx, hl⟩

theorem idsOf_spliceIn_iff {l : List TaskItem} {x : TaskItem} {i : Nat}
    {tid : String} : tid ∈ idsOf (spliceIn l i x) ↔ tid = x.taskId ∨ tid ∈ idsOf l := by
  have hperm : (idsOf (spliceIn l i x)).Perm (idsOf (x :: l)) :=
    (spliceIn_perm l i x).map _
  rw [hperm.mem_iff]
  simp [idsOf]

theorem idIndexIn_spliceIn_self {l : List TaskItem} {x : TaskItem} {i : Nat}
    (hle : i ≤ l.length) (hx : x.taskId ∉ idsOf l) :
    idIndexIn (spliceIn l i x) x.taskId = some i := by
  unfold spliceIn
  rw [idIndexIn_append]
  have h1 : idIndexIn (l.take i) x.taskId = none := by
    apply idIndexIn_eq_none
    intro hmem
    obtain ⟨z, hz, hid⟩ := List.mem_map.mp hmem
    exact hx (hid ▸ mem_idsOf (List.mem_of_mem_take hz))
  rw [h1]
  have h2 : idIndexIn (x :: l.drop i) x.taskId = some 0 := by
    rw [idIndexIn_cons]; simp
  rw [h2]
  simp [List.length_take, Nat.min_eq_left hle]

theorem idIndexIn_spliceIn_found {l : List TaskItem} {x : TaskItem} {i : Nat}
    {tid : String} (h : idIndexIn l tid = some i) (hx : x.taskId ≠ tid) :
    idIndexIn (spliceIn l i x) tid = some (i + 1) := by
  obtain ⟨u, y, v, hl, hlen, hu, hy⟩ := idIndexIn_eq_some_split h
  subst hl
  unfold spliceIn
  rw [List.take_left' hlen, List.drop_left' hlen, idIndexIn_append]
  have h1 : idIndexIn u tid = none := by
    apply idIndexIn_eq_none
    intro hmem
    obtain ⟨z, hz, hid⟩ := List.mem_map.mp hmem
    exact hu z hz hid
  rw [h1]
  have h2 : idIndexIn (x :: y :: v) tid = some 1 := by
    rw [idIndexIn_cons]
    have h3 : idIndexIn (y :: v) tid = some 0 := by
      rw [idIndexIn_cons]; simp [hy]
    simp [hx, h3]
  rw [h2]
  simp [hlen, Nat.add_comm]

/-! ### The index map of a duplicate-free array is the range -/

theorem rangeInt_succ (n : Nat) :
    rangeInt (n + 1) = 0 :: (rangeInt n).map (fun k => k + 1) := by
  unfold rangeInt
  rw [List.range_succ_eq_map, List.map_cons, List.map_map, List.map_map]
  congr 1

theorem map_idIndexIn_idsOf {arr : List TaskItem} (harr : (idsOf arr).Nodup) :
    (idsOf arr).map (fun tid => (((idIndexIn arr tid).getD 0 : Nat) : Int)) =
      rangeInt arr.length := by
  induction arr with
  | nil => rfl
  | cons a rest ih =>
      have harr' : (idsOf rest).Nodup := (List.nodup_cons.mp harr).2
      have hanm : a.taskId ∉ idsOf rest := (List.nodup_cons.mp harr).1
      have hids : idsOf (a :: rest) = a.taskId :: idsOf rest := rfl
      rw [hids, List.map_cons, List.length_cons, rangeInt_succ]
      congr 1
      · rw [idIndexIn_cons]
        simp
      · rw [← ih harr', List.map_map]
        apply List.map_congr_left
        intro tid htid
        simp only [Function.comp_apply]
        have hne : ¬(a.taskId = tid) := fun h => hanm (h ▸ htid)
        rw [idIndexIn_cons]
        simp only [hne, if_false]
        obtain ⟨j, hj⟩ := idIndexIn_eq_some_of_mem htid
        rw [hj]
        simp

/-! ### Consequences of the map normal form of `writeOrders` -/

theorem getTask_map_preserved {f : TaskItem → TaskItem}
    (hf : ∀ t, (f t).taskId = t.taskId) (ts : List TaskItem) (tid : String) :
    getTask (ts.map f) tid = (getTask ts tid).map f := by
  unfold getTask
  rw [List.find?_map]
  have hpf : ((fun t => decide (t.taskId = tid)) ∘ f) =
      (fun t : TaskItem => decide (t.taskId = tid)) :=
    funext fun t => by simp [Function.comp_apply, hf t]
  rw [hpf]

theorem mem_tasksIn {t : TaskItem} {ts : List TaskItem} {L : String} :
    t ∈ tasksIn ts L ↔ t ∈ ts ∧ t.listId = L := by
  simp [tasksIn, List.mem_filter]

theorem tasksIn_map_preserved {f : TaskItem → TaskItem}
    (hf : ∀ t, (f t).listId = t.listId) (ts : List TaskItem) (L : String) :
    tasksIn (ts.map f) L = (tasksIn ts L).map f := by
  unfold tasksIn
  rw [List.filter_map]
  have hpf : ((fun t => decide (t.listId = L)) ∘ f) =
      (fun t : TaskItem => decide (t.listId = L)) :=
    funext fun t => by simp [Function.comp_apply, hf t]
  rw [hpf]

theorem getTask_writeOrders {acc arr : List TaskItem}
    (hacc : (idsOf acc).Nodup) (harr : (idsOf arr).Nodup) (tid : String) :
    getTask (writeOrders acc arr 0) tid = (getTask acc tid).map (orderPatch arr 0) := by
  rw [writeOrders_eq_map harr hacc 0]
  exact getTask_map_preserved (taskId_orderPatch arr 0) acc tid

theorem getTask_writeOrders_untouched {acc arr : List TaskItem} {t : TaskItem}
    (hacc : (idsOf acc).Nodup) (harr : (idsOf arr).Nodup)
    (ht : t ∈ acc) (hnot : t.taskId ∉ idsOf arr) :
    getTask (writeOrders acc arr 0) t.taskId = some t := by
  rw [getTask_writeOrders hacc harr, getTask_of_mem hacc ht]
  simp [orderPatch, idIndexIn_eq_none hnot]

theorem tasksIn_writeOrders {acc arr : List TaskItem}
    (hacc : (idsOf acc).Nodup) (harr : (idsOf arr).Nodup) (L : String) :
    tasksIn (writeOrders acc arr 0) L = (tasksIn acc L).map (orderPatch arr 0) := by
  rw [writeOrders_eq_map harr hacc 0]
  exact tasksIn_map_preserved (listId_orderPatch arr 0) acc L

theorem tasksIn_writeOrders_untouched {acc arr : List TaskItem} {L0 : String}
    (hacc : (idsOf acc).Nodup) (harr : (idsOf arr).Nodup)
    (hsub : ∀ a ∈ arr, a ∈ acc) (hL0 : ∀ a ∈ arr, a.listId = L0)
    {L : String} (hne : L ≠ L0) :
    tasksIn (writeOrders acc arr 0) L = tasksIn acc L := by
  rw [tasksIn_writeOrders hacc harr]
  have hcg : (tasksIn acc L).map (orderPatch arr 0) = (tasksIn acc L).map id := by
    apply List.map_congr_left
    intro t htm
    obtain ⟨hta, htl⟩ := mem_tasksIn.mp htm
    have hnot : t.taskId ∉ idsOf arr := by
      intro hmem
      obtain ⟨a, ha, hid⟩ := List.mem_map.mp hmem
      have hat : a = t := eq_of_mem_of_taskId_eq hacc (hsub a ha) hta hid
      have hLL : L = L0 := by rw [← htl, ← hat]; exact hL0 a ha
      exact hne hLL
    simp [orderPatch, idIndexIn_eq_none hnot]
  simpa using hcg

theorem idsOf_tasksIn_perm_of_cover {acc arr : List TaskItem} {L : String}
    (hacc : (idsOf acc).Nodup) (harr : (idsOf arr).Nodup)
    (hsub : ∀ a ∈ arr, a ∈ acc) (hL : ∀ a ∈ arr, a.listId = L)
    (hC : ∀ t ∈ acc, t.listId = L → t.taskId ∈ idsOf arr) :
    (idsOf (tasksIn acc L)).Perm (idsOf arr) := by
  have h1 : (idsOf (tasksIn acc L)).Nodup := nodup_idsOf_filter hacc _
  apply (List.perm_ext_iff_of_nodup h1 harr).mpr
  intro tid
  constructor
  · intro hmem
    obtain ⟨t, htm, hid⟩ := List.mem_map.mp hmem
    obtain ⟨hta, htl⟩ := mem_tasksIn.mp htm
    exact hid ▸ hC t hta htl
  · intro hmem
    obtain ⟨a, ha, hid⟩ := List.mem_map.mp hmem
    exact hid ▸ mem_idsOf (mem_tasksIn.mpr ⟨hsub a ha, hL a ha⟩)

theorem denseOrders_writeOrders {acc arr : List TaskItem} {L : String}
    (hacc : (idsOf acc).Nodup) (harr : (idsOf arr).Nodup)
    (hsub : ∀ a ∈ arr, a ∈ acc) (hL : ∀ a ∈ arr, a.listId = L)
    (hC : ∀ t ∈ acc, t.listId = L → t.taskId ∈ idsOf arr) :
    denseOrders (writeOrders acc arr 0) L ∧
      (tasksIn (writeOrders acc arr 0) L).length = arr.length := by
  have hperm := idsOf_tasksIn_perm_of_cover hacc harr hsub hL hC
  have hlen : (tasksIn acc L).length = arr.length := by
    have h1 := hperm.length_eq
    simpa [idsOf] using h1
  have htw := @tasksIn_writeOrders acc arr hacc harr L
  have hlen2 : (tasksIn (writeOrders acc arr 0) L).length = arr.length := by
    rw [htw, List.length_map, hlen]
  refine ⟨?_, hlen2⟩
  unfold denseOrders ordersIn
  rw [hlen2, htw, List.map_map]
  have hval : (tasksIn acc L).map ((fun t => t.order) ∘ orderPatch arr 0) =
      (tasksIn acc L).map
        ((fun tid => (((idIndexIn arr tid).getD 0 : Nat) : Int)) ∘ (fun t => t.taskId)) := by
    apply List.map_congr_left
    intro t htm
    obtain ⟨hta, htl⟩ := mem_tasksIn.mp htm
    obtain ⟨j, hj⟩ := idIndexIn_eq_some_of_mem (hC t hta htl)
    simp [Function.comp_apply, orderPatch, hj]
  rw [hval, ← List.map_map]
  have hfinal := (hperm.map
    (fun tid => (((idIndexIn arr tid).getD 0 : Nat) : Int)))
  rw [map_idIndexIn_idsOf harr] at hfinal
  exact hfinal

/-! ### The same-list branch of `executeCommit`, unfolded -/

theorem executeCommit_same_unfold (tasks : List TaskItem) (X s slot : String)
    (p : Option TodayPatch) (dx : TaskItem) (hget : getTask tasks X = some dx)
    (other arr : List TaskItem) (ins : Nat)
    (hother : other = byOrder (tasks.filter (fun t => t.listId = s ∧ t.taskId ≠ X)))
    (hins : ins = ((if slot = "end:" ++ s then some other.length
      else idIndexIn other slot).getD other.length))
    (harr : arr = spliceIn other ins dx) :
    executeCommit tasks X s s slot p = some (writeOrders tasks arr 0) := by
  subst harr hins hother
  unfold executeCommit
  rw [if_pos rfl]
  unfold getTask at hget
  rw [hget]
  rfl

theorem same_list_arr_facts (tasks : List TaskItem) (X s : String)
    (dx : TaskItem) (hn : (idsOf tasks).Nodup)
    (hget : getTask tasks X = some dx) (hlid : dx.listId = s)
    (other arr : List TaskItem) (ins : Nat)
    (hother : other = byOrder (tasks.filter (fun t => t.listId = s ∧ t.taskId ≠ X)))
    (harr : arr = spliceIn other ins dx) :
    (idsOf arr).Nodup ∧ (∀ a ∈ arr, a ∈ tasks ∧ a.listId = s) ∧
      (∀ t ∈ tasks, t.listId = s → t.taskId ∈ idsOf arr) := by
  have hdx_id : dx.taskId = X := taskId_of_getTask hget
  have hdx_mem : dx ∈ tasks := mem_of_getTask hget
  have hmem_other : ∀ a, a ∈ other ↔ a ∈ tasks ∧ a.listId = s ∧ a.taskId ≠ X := by
    intro a
    rw [hother, mem_byOrder, List.mem_filter]
    simp
  have hnother : (idsOf other).Nodup := by
    rw [hother]
    exact nodup_idsOf_byOrder (nodup_idsOf_filter hn _)
  have hdx_not : dx.taskId ∉ idsOf other := by
    intro hmem
    obtain ⟨a, ha, hid⟩ := List.mem_map.mp hmem
    exact ((hmem_other a).mp ha).2.2 (hid.trans hdx_id)
  refine ⟨?_, ?_, ?_⟩
  · rw [harr]
    exact nodup_idsOf_spliceIn hnother hdx_not
  · intro a ha
    rw [harr, mem_spliceIn] at ha
    rcases ha with rfl | ha
    · exact ⟨hdx_mem, hlid⟩
    · obtain ⟨h1, h2, _⟩ := (hmem_other a).mp ha
      exact ⟨h1, h2⟩
  · intro t ht htl
    by_cases hX : t.taskId = X
    · have ht_dx : t = dx := eq_of_mem_of_taskId_eq hn ht hdx_mem (hX.trans hdx_id.symm)
      rw [harr]
      exact idsOf_spliceIn_iff.mpr (Or.inl (by rw [ht_dx]))
    · have hto : t ∈ other := (hmem_other t).mpr ⟨ht, htl, hX⟩
      rw [harr]
      exact idsOf_spliceIn_iff.mpr (Or.inr (mem_idsOf hto))

/-! ### More small lemmas for the cross-list branch -/

theorem listId_applyPatch (t : TaskItem) (p : Option TodayPatch) :
    (applyPatch t p).listId = t.listId := by
  cases p <;> rfl

theorem listId_movePatch_of_ne {X tg : String} {p : Option TodayPatch}
    {t : TaskItem} (h : t.taskId ≠ X) : movePatch X tg p t = t := by
  simp [movePatch, h]

theorem getTask_cons (t : TaskItem) (rest : List TaskItem) (tid : String) :
    getTask (t :: rest) tid = if t.taskId = tid then some t else getTask rest tid := by
  unfold getTask
  rw [List.find?_cons]
  by_cases h : t.taskId = tid
  · simp [h]
  · simp [h]

theorem getTask_applyMoveFirst_ne (acc : List TaskItem) (X tg : String)
    (p : Option TodayPatch) (tid : String) (h : tid ≠ X) :
    getTask (applyMoveFirst acc X tg p) tid = getTask acc tid := by
  induction acc with
  | nil => rfl
  | cons t rest ih =>
      unfold applyMoveFirst
      by_cases ht : t.taskId = X
      · rw [if_pos ht, getTask_cons, getTask_cons]
        have h1 : ¬((applyPatch { t with listId := tg } p).taskId = tid) := by
          rw [taskId_applyPatch, ht]
          exact fun he => h he.symm
        have h2 : ¬(t.taskId = tid) := by
          rw [ht]
          exact fun he => h he.symm
        rw [if_neg h1, if_neg h2]
      · rw [if_neg ht, getTask_cons, getTask_cons]
        by_cases htid : t.taskId = tid
        · rw [if_pos htid, if_pos htid]
        · rw [if_neg htid, if_neg htid, ih]

theorem getTask_applyMoveFirst_self (acc : List TaskItem) (X tg : String)
    (p : Option TodayPatch) (dx : TaskItem) (hget : getTask acc X = some dx) :
    getTask (applyMoveFirst acc X tg p) X =
      some (applyPatch { dx with listId := tg } p) := by
  induction acc with
  | nil => simp [getTask] at hget
  | cons t rest ih =>
      unfold applyMoveFirst
      by_cases ht : t.taskId = X
      · rw [if_pos ht]
        rw [getTask_cons, if_pos ht] at hget
        have hdx : t = dx := Option.some.inj hget
        rw [getTask_cons]
        have h1 : (applyPatch { t with listId := tg } p).taskId = X := by
          rw [taskId_applyPatch]; exact ht
        rw [if_pos h1, hdx]
      · rw [if_neg ht]
        rw [getTask_cons, if_neg ht] at hget
        rw [getTask_cons, if_neg ht]
        exact ih hget

theorem length_filter_ne_id {l : List TaskItem} {dx : TaskItem}
    (hn : (idsOf l).Nodup) (hm : dx ∈ l) :
    (l.filter (fun t => t.taskId ≠ dx.taskId)).length + 1 = l.length := by
  induction l with
  | nil => simp at hm
  | cons t rest ih =>
      have hn' : (idsOf rest).Nodup := (List.nodup_cons.mp hn).2
      have hnm : t.taskId ∉ idsOf rest := (List.nodup_cons.mp hn).1
      by_cases ht : t.taskId = dx.taskId
      · simp only [List.filter_cons, ht]
        simp [List.filter_cons, ht]
        intro a ha hcc
        exact hnm (by rw [ht, ← hcc]; exact mem_idsOf ha)
      · have hdx_rest : dx ∈ rest := by
          rcases List.mem_cons.mp hm with rfl | hmr
          · exact absurd rfl ht
          · exact hmr
        have hlen := ih hn' hdx_rest
        simp only [List.filter_cons]
        have hc : (decide ¬(t.taskId = dx.taskId)) = true := by simp [ht]
        simp only [ne_eq, hc, if_true, List.length_cons]
        simp only [ne_eq] at hlen
        omega

theorem spliceIn_at_length (l : List TaskItem) (x : TaskItem) :
    spliceIn l l.length x = l ++ [x] := by
  unfold spliceIn
  rw [List.take_length, List.drop_length]

theorem mem_rangeInt_lt {v : Int} {n : Nat} (h : v ∈ rangeInt n) :
    0 ≤ v ∧ v < (n : Int) := by
  unfold rangeInt at h
  obtain ⟨k, hk, rfl⟩ := List.mem_map.mp h
  have hkn := List.mem_range.mp hk
  rw [Int.ofNat_eq_coe]
  omega

/-! ### The cross-list branch of `executeCommit`, unfolded -/

theorem executeCommit_cross_unfold (tasks : List TaskItem) (X s tg slot : String)
    (p : Option TodayPatch) (dx : TaskItem)
    (hget : getTask tasks X = some dx) (hne : s ≠ tg)
    (u1 u2 srcRem tgtEx arr : List TaskItem) (ins : Nat) (dx2 : TaskItem)
    (hu1 : u1 = applyMoveFirst tasks X tg p)
    (hsrc : srcRem = byOrder (u1.filter (fun t => t.listId = s)))
    (hu2 : u2 = writeOrders u1 srcRem 0)
    (htgt : tgtEx = byOrder (u2.filter (fun t => t.listId = tg ∧ t.taskId ≠ X)))
    (hins : ins = ((if slot = "end:" ++ tg then some tgtEx.length
      else idIndexIn tgtEx slot).getD tgtEx.length))
    (hdx2 : getTask u2 X = some dx2)
    (harr : arr = spliceIn tgtEx ins dx2) :
    executeCommit tasks X s tg slot p = some (writeOrders u2 arr 0) := by
  subst harr hins htgt hu2 hsrc hu1
  have hXmem : X ∈ idsOf tasks := by
    have h1 := mem_idsOf (mem_of_getTask hget)
    rwa [taskId_of_getTask hget] at h1
  obtain ⟨i, hi⟩ := idIndexIn_eq_some_of_mem hXmem
  unfold executeCommit
  rw [if_neg hne]
  unfold idIndexIn at hi
  rw [hi]
  unfold getTask at hdx2
  simp only at hdx2 ⊢
  rw [hdx2]
  rfl

/-! ### Transport of list filters through the cross-list pipeline -/

theorem filter_applyMoveFirst_source (tasks : List TaskItem) (X s tg : String)
    (p : Option TodayPatch) (dx : TaskItem)
    (hn : (idsOf tasks).Nodup) (hget : getTask tasks X = some dx)
    (hlid : dx.listId = s) (hne : s ≠ tg) :
    (applyMoveFirst tasks X tg p).filter (fun t => t.listId = s) =
      tasks.filter (fun t => t.listId = s ∧ t.taskId ≠ X) := by
  have hdx_id : dx.taskId = X := taskId_of_getTask hget
  have hdx_mem : dx ∈ tasks := mem_of_getTask hget
  rw [applyMoveFirst_eq_map hn, List.filter_map]
  have hstep1 : tasks.filter ((fun t => decide (t.listId = s)) ∘ movePatch X tg p) =
      tasks.filter (fun t => t.listId = s ∧ t.taskId ≠ X) := by
    apply List.filter_congr
    intro t ht
    simp only [Function.comp_apply]
    by_cases hX : t.taskId = X
    · have ht_dx : t = dx := eq_of_mem_of_taskId_eq hn ht hdx_mem (hX.trans hdx_id.symm)
      have h1 : (movePatch X tg p t).listId = tg := by
        unfold movePatch
        rw [if_pos hX, listId_applyPatch]
      rw [h1]
      have h2 : ¬(tg = s) := fun he => hne he.symm
      simp [h2, hX]
    · rw [listId_movePatch_of_ne hX]
      simp [hX]
  rw [hstep1]
  have hstep2 : (tasks.filter (fun t => t.listId = s ∧ t.taskId ≠ X)).map
      (movePatch X tg p) = (tasks.filter (fun t => t.listId = s ∧ t.taskId ≠ X)).map id := by
    apply List.map_congr_left
    intro t ht
    have hX : t.taskId ≠ X := by
      have := (List.mem_filter.mp ht).2
      simp at this
      exact this.2
    simp [listId_movePatch_of_ne hX]
  rw [hstep2]
  simp

theorem srcRem_facts (tasks : List TaskItem) (X s tg : String)
    (p : Option TodayPatch) (dx : TaskItem)
    (hn : (idsOf tasks).Nodup) (hget : getTask tasks X = some dx)
    (hlid : dx.listId = s) (hne : s ≠ tg)
    (u1 srcRem : List TaskItem)
    (hu1 : u1 = applyMoveFirst tasks X tg p)
    (hsrc : srcRem = byOrder (u1.filter (fun t => t.listId = s))) :
    (idsOf srcRem).Nodup ∧ (∀ a ∈ srcRem, a ∈ u1 ∧ a.listId = s) ∧
      X ∉ idsOf srcRem ∧ (∀ t ∈ u1, t.listId = s → t.taskId ∈ idsOf srcRem) ∧
      srcRem.length + 1 = (tasksIn tasks s).length := by
  have hdx_id : dx.taskId = X := taskId_of_getTask hget
  have hdx_mem : dx ∈ tasks := mem_of_getTask hget
  have hn1 : (idsOf u1).Nodup := by
    rw [hu1, idsOf_applyMoveFirst]; exact hn
  have hget1 : getTask u1 X = some (applyPatch { dx with listId := tg } p) := by
    rw [hu1]; exact getTask_applyMoveFirst_self tasks X tg p dx hget
  have hgetlid : (applyPatch { dx with listId := tg } p).listId = tg := by
    rw [listId_applyPatch]
  have hmem_src : ∀ a, a ∈ srcRem ↔ a ∈ u1 ∧ a.listId = s := by
    intro a
    rw [hsrc, mem_byOrder, List.mem_filter]
    simp
  have hXnot : X ∉ idsOf srcRem := by
    intro hmem
    obtain ⟨a, ha, hid⟩ := List.mem_map.mp hmem
    obtain ⟨ha1, ha2⟩ := (hmem_src a).mp ha
    have hga : getTask u1 X = some a := by
      rw [← hid]; exact getTask_of_mem hn1 ha1
    have : a = applyPatch { dx with listId := tg } p :=
      Option.some.inj (hga.symm.trans hget1)
    rw [this, hgetlid] at ha2
    exact hne ha2.symm
  refine ⟨?_, fun a ha => (hmem_src a).mp ha, hXnot, ?_, ?_⟩
  · rw [hsrc]
    exact nodup_idsOf_byOrder (nodup_idsOf_filter hn1 _)
  · intro t ht htl
    exact mem_idsOf ((hmem_src t).mpr ⟨ht, htl⟩)
  · have hperm : srcRem.Perm (u1.filter (fun t => t.listId = s)) := by
      rw [hsrc]; exact byOrder_perm _
    rw [hperm.length_eq, hu1,
      filter_applyMoveFirst_source tasks X s tg p dx hn hget hlid hne]
    have hfeq : tasks.filter (fun t => t.listId = s ∧ t.taskId ≠ X) =
        (tasksIn tasks s).filter (fun t => t.taskId ≠ dx.taskId) := by
      unfold tasksIn
      rw [List.filter_filter]
      apply List.filter_congr
      intro t _
      rw [hdx_id]
      simp [Bool.and_comm]
    rw [hfeq]
    exact length_filter_ne_id (nodup_idsOf_filter hn _)
      (mem_tasksIn.mpr ⟨hdx_mem, hlid⟩)

theorem u2_facts (tasks : List TaskItem) (X s tg : String)
    (p : Option TodayPatch) (dx : TaskItem)
    (hn : (idsOf tasks).Nodup) (hget : getTask tasks X = some dx)
    (hlid : dx.listId = s) (hne : s ≠ tg)
    (u1 srcRem u2 : List TaskItem)
    (hu1 : u1 = applyMoveFirst tasks X tg p)
    (hsrc : srcRem = byOrder (u1.filter (fun t => t.listId = s)))
    (hu2 : u2 = writeOrders u1 srcRem 0) :
    (idsOf u2).Nodup ∧ idsOf u2 = idsOf tasks ∧
      getTask u2 X = some (applyPatch { dx with listId := tg } p) := by
  have hn1 : (idsOf u1).Nodup := by
    rw [hu1, idsOf_applyMoveFirst]; exact hn
  obtain ⟨hsn, _, hXnot, _, _⟩ :=
    srcRem_facts tasks X s tg p dx hn hget hlid hne u1 srcRem hu1 hsrc
  have hids2 : idsOf u2 = idsOf tasks := by
    rw [hu2, idsOf_writeOrders, hu1, idsOf_applyMoveFirst]
  have hget1 : getTask u1 X = some (applyPatch { dx with listId := tg } p) := by
    rw [hu1]; exact getTask_applyMoveFirst_self tasks X tg p dx hget
  have hmem1 : applyPatch { dx with listId := tg } p ∈ u1 := mem_of_getTask hget1
  have htid : (applyPatch { dx with listId := tg } p).taskId = X := by
    rw [taskId_applyPatch]
    show dx.taskId = X
    exact taskId_of_getTask hget
  refine ⟨hids2 ▸ hn, hids2, ?_⟩
  have := getTask_writeOrders_untouched hn1 hsn hmem1 (htid ▸ hXnot)
  rw [htid] at this
  rw [hu2]
  exact this

theorem filter_u2_target (tasks : List TaskItem) (X s tg : String)
    (p : Option TodayPatch) (dx : TaskItem)
    (hn : (idsOf tasks).Nodup) (hget : getTask tasks X = some dx)
    (hlid : dx.listId = s) (hne : s ≠ tg)
    (u1 srcRem u2 : List TaskItem)
    (hu1 : u1 = applyMoveFirst tasks X tg p)
    (hsrc : srcRem = byOrder (u1.filter (fun t => t.listId = s)))
    (hu2 : u2 = writeOrders u1 srcRem 0) :
    u2.filter (fun t => t.listId = tg ∧ t.taskId ≠ X) = tasksIn tasks tg := by
  have hdx_id : dx.taskId = X := taskId_of_getTask hget
  have hdx_mem : dx ∈ tasks := mem_of_getTask hget
  have hn1 : (idsOf u1).Nodup := by
    rw [hu1, idsOf_applyMoveFirst]; exact hn
  obtain ⟨hsn, hsmem, _, _, _⟩ :=
    srcRem_facts tasks X s tg p dx hn hget hlid hne u1 srcRem hu1 hsrc
  have hstep1 : u2.filter (fun t => t.listId = tg ∧ t.taskId ≠ X) =
      u1.filter (fun t => t.listId = tg ∧ t.taskId ≠ X) := by
    rw [hu2, writeOrders_eq_map hsn hn1 0, List.filter_map]
    have hpf : ((fun t => decide (t.listId = tg ∧ t.taskId ≠ X)) ∘ orderPatch srcRem 0) =
        (fun t : TaskItem => decide (t.listId = tg ∧ t.taskId ≠ X)) :=
      funext fun t => by
        simp [Function.comp_apply, listId_orderPatch, taskId_orderPatch]
    rw [hpf]
    have hid2 : (u1.filter (fun t => t.listId = tg ∧ t.taskId ≠ X)).map
        (orderPatch srcRem 0) =
        (u1.filter (fun t => t.listId = tg ∧ t.taskId ≠ X)).map id := by
      apply List.map_congr_left
      intro t ht
      obtain ⟨ht1, ht2⟩ := List.mem_filter.mp ht
      have ht2l : t.listId = tg := by
        simp only [decide_eq_true_eq] at ht2
        exact ht2.1
      have hnot : t.taskId ∉ idsOf srcRem := by
        intro hmem
        obtain ⟨a, ha, hid⟩ := List.mem_map.mp hmem
        obtain ⟨ha1, ha2⟩ := hsmem a ha
        have hat : a = t := eq_of_mem_of_taskId_eq hn1 ha1 ht1 hid
        rw [hat, ht2l] at ha2
        exact hne ha2.symm
      simp [orderPatch, idIndexIn_eq_none hnot]
    rw [hid2]
    simp
  rw [hstep1, hu1, applyMoveFirst_eq_map hn, List.filter_map]
  have hc1 : tasks.filter
      ((fun t => decide (t.listId = tg ∧ t.taskId ≠ X)) ∘ movePatch X tg p) =
      tasks.filter (fun t => t.listId = tg) := by
    apply List.filter_congr
    intro t ht
    simp only [Function.comp_apply]
    by_cases hX : t.taskId = X
    · have ht_dx : t = dx := eq_of_mem_of_taskId_eq hn ht hdx_mem (hX.trans hdx_id.symm)
      have h1 : (movePatch X tg p t).taskId = X := by
        rw [taskId_movePatch]; exact hX
      have h2 : ¬(t.listId = tg) := by
        rw [ht_dx, hlid]; exact hne
      simp [h1, h2]
    · rw [listId_movePatch_of_ne hX]
      simp [hX]
  rw [hc1]
  have hc2 : (tasks.filter (fun t => t.listId = tg)).map (movePatch X tg p) =
      (tasks.filter (fun t => t.listId = tg)).map id := by
    apply List.map_congr_left
    intro t ht
    obtain ⟨ht1, ht2⟩ := List.mem_filter.mp ht
    have ht2l : t.listId = tg := by simpa using ht2
    have hX : t.taskId ≠ X := by
      intro hXX
      have ht_dx : t = dx := eq_of_mem_of_taskId_eq hn ht1 hdx_mem (hXX.trans hdx_id.symm)
      rw [ht_dx, hlid] at ht2l
      exact hne ht2l
    simp [listId_movePatch_of_ne hX]
  rw [hc2]
  simp [tasksIn]

theorem tgtEx_facts (tasks : List TaskItem) (X s tg : String)
    (p : Option TodayPatch) (dx : TaskItem)
    (hn : (idsOf tasks).Nodup) (hget : getTask tasks X = some dx)
    (hlid : dx.listId = s) (hne : s ≠ tg)
    (u1 srcRem u2 tgtEx : List TaskItem)
    (hu1 : u1 = applyMoveFirst tasks X tg p)
    (hsrc : srcRem = byOrder (u1.filter (fun t => t.listId = s)))
    (hu2 : u2 = writeOrders u1 srcRem 0)
    (htgt : tgtEx = byOrder (u2.filter (fun t => t.listId = tg ∧ t.taskId ≠ X))) :
    (idsOf tgtEx).Nodup ∧
      (∀ a ∈ tgtEx, a ∈ u2 ∧ a.listId = tg ∧ a.taskId ≠ X) ∧
      X ∉ idsOf tgtEx ∧
      tgtEx.length = (tasksIn tasks tg).length ∧
      (∀ a, a ∈ tgtEx ↔ a ∈ tasksIn tasks tg) := by
  obtain ⟨hn2, _, _⟩ :=
    u2_facts tasks X s tg p dx hn hget hlid hne u1 srcRem u2 hu1 hsrc hu2
  have hfil := filter_u2_target tasks X s tg p dx hn hget hlid hne
    u1 srcRem u2 hu1 hsrc hu2
  have hmemt : ∀ a, a ∈ tgtEx ↔ a ∈ u2 ∧ (a.listId = tg ∧ a.taskId ≠ X) := by
    intro a
    rw [htgt, mem_byOrder, List.mem_filter]
    simp
  refine ⟨?_, ?_, ?_, ?_, ?_⟩
  · rw [htgt]
    exact nodup_idsOf_byOrder (nodup_idsOf_filter hn2 _)
  · intro a ha
    obtain ⟨h1, h2, h3⟩ := (hmemt a).mp ha
    exact ⟨h1, h2, h3⟩
  · intro hmem
    obtain ⟨a, ha, hid⟩ := List.mem_map.mp hmem
    exact ((hmemt a).mp ha).2.2 hid
  · rw [htgt, (byOrder_perm _).length_eq, hfil]
  · intro a
    rw [htgt, mem_byOrder, hfil]

theorem cross_arr_facts (tasks : List TaskItem) (X s tg : String)
    (p : Option TodayPatch) (dx : TaskItem)
    (hn : (idsOf tasks).Nodup) (hget : getTask tasks X = some dx)
    (hlid : dx.listId = s) (hne : s ≠ tg)
    (u1 srcRem u2 tgtEx arr : List TaskItem) (ins : Nat)
    (hu1 : u1 = applyMoveFirst tasks X tg p)
    (hsrc : srcRem = byOrder (u1.filter (fun t => t.listId = s)))
    (hu2 : u2 = writeOrders u1 srcRem 0)
    (htgt : tgtEx = byOrder (u2.filter (fun t => t.listId = tg ∧ t.taskId ≠ X)))
    (harr : arr = spliceIn tgtEx ins (applyPatch { dx with listId := tg } p)) :
    (idsOf arr).Nodup ∧ (∀ a ∈ arr, a ∈ u2 ∧ a.listId = tg) ∧
      (∀ t ∈ u2, t.listId = tg → t.taskId ∈ idsOf arr) ∧
      arr.length = (tasksIn tasks tg).length + 1 := by
  obtain ⟨hn2, _, hget2⟩ :=
    u2_facts tasks X s tg p dx hn hget hlid hne u1 srcRem u2 hu1 hsrc hu2
  obtain ⟨htn, htmem, hXnot, htlen, _⟩ :=
    tgtEx_facts tasks X s tg p dx hn hget hlid hne u1 srcRem u2 tgtEx
      hu1 hsrc hu2 htgt
  have htid : (applyPatch { dx with listId := tg } p).taskId = X := by
    rw [taskId_applyPatch]
    show dx.taskId = X
    exact taskId_of_getTask hget
  have htlid : (applyPatch { dx with listId := tg } p).listId = tg := by
    rw [listId_applyPatch]
  have hmem2 : applyPatch { dx with listId := tg } p ∈ u2 := mem_of_getTask hget2
  refine ⟨?_, ?_, ?_, ?_⟩
  · rw [harr]
    exact nodup_idsOf_spliceIn htn (htid ▸ hXnot)
  · intro a ha
    rw [harr, mem_spliceIn] at ha
    rcases ha with rfl | ha
    · exact ⟨hmem2, htlid⟩
    · obtain ⟨h1, h2, _⟩ := htmem a ha
      exact ⟨h1, h2⟩
  · intro t ht htl
    by_cases hX : t.taskId = X
    · rw [harr, hX]
      exact idsOf_spliceIn_iff.mpr (Or.inl htid.symm)
    · have htm : t ∈ tgtEx := by
        rw [htgt, mem_byOrder, List.mem_filter]
        simp [ht, htl, hX]
      rw [harr]
      exact idsOf_spliceIn_iff.mpr (Or.inr (mem_idsOf htm))
  · rw [harr, length_spliceIn, htlen]

theorem tasksIn_applyMoveFirst_other (tasks : List TaskItem) (X s tg : String)
    (p : Option TodayPatch) (dx : TaskItem)
    (hn : (idsOf tasks).Nodup) (hget : getTask tasks X = some dx)
    (hlid : dx.listId = s) {L : String} (hLs : L ≠ s) (hLt : L ≠ tg) :
    tasksIn (applyMoveFirst tasks X tg p) L = tasksIn tasks L := by
  have hdx_id : dx.taskId = X := taskId_of_getTask hget
  have hdx_mem : dx ∈ tasks := mem_of_getTask hget
  rw [applyMoveFirst_eq_map hn]
  unfold tasksIn
  rw [List.filter_map]
  have hc1 : tasks.filter ((fun t => decide (t.listId = L)) ∘ movePatch X tg p) =
      tasks.filter (fun t => t.listId = L) := by
    apply List.filter_congr
    intro t ht
    simp only [Function.comp_apply]
    by_cases hX : t.taskId = X
    · have ht_dx : t = dx := eq_of_mem_of_taskId_eq hn ht hdx_mem (hX.trans hdx_id.symm)
      have h1 : (movePatch X tg p t).listId = tg := by
        unfold movePatch
        rw [if_pos hX, listId_applyPatch]
      rw [h1]
      have h2 : ¬(tg = L) := fun he => hLt he.symm
      have h3 : ¬(t.listId = L) := by
        rw [ht_dx, hlid]
        exact fun he => hLs he.symm
      simp [h2, h3]
    · rw [listId_movePatch_of_ne hX]
  rw [hc1]
  have hc2 : (tasks.filter (fun t => t.listId = L)).map (movePatch X tg p) =
      (tasks.filter (fun t => t.listId = L)).map id := by
    apply List.map_congr_left
    intro t ht
    obtain ⟨ht1, ht2⟩ := List.mem_filter.mp ht
    have ht2l : t.listId = L := by simpa using ht2
    have hX : t.taskId ≠ X := by
      intro hXX
      have ht_dx : t = dx := eq_of_mem_of_taskId_eq hn ht1 hdx_mem (hXX.trans hdx_id.symm)
      rw [ht_dx, hlid] at ht2l
      exact hLs ht2l.symm
    simp [listId_movePatch_of_ne hX]
  rw [hc2]
  simp

theorem tasksIn_cross_other (tasks : List TaskItem) (X s tg : String)
    (p : Option TodayPatch) (dx : TaskItem)
    (hn : (idsOf tasks).Nodup) (hget : getTask tasks X = some dx)
    (hlid : dx.listId = s) (hne : s ≠ tg)
    (u1 srcRem u2 tgtEx arr : List TaskItem) (ins : Nat)
    (hu1 : u1 = applyMoveFirst tasks X tg p)
    (hsrc : srcRem = byOrder (u1.filter (fun t => t.listId = s)))
    (hu2 : u2 = writeOrders u1 srcRem 0)
    (htgt : tgtEx = byOrder (u2.filter (fun t => t.listId = tg ∧ t.taskId ≠ X)))
    (harr : arr = spliceIn tgtEx ins (applyPatch { dx with listId := tg } p))
    {L : String} (hLs : L ≠ s) (hLt : L ≠ tg) :
    tasksIn (writeOrders u2 arr 0) L = tasksIn tasks L := by
  have hn1 : (idsOf u1).Nodup := by
    rw [hu1, idsOf_applyMoveFirst]; exact hn
  obtain ⟨hsn, hsmem, _, _, _⟩ :=
    srcRem_facts tasks X s tg p dx hn hget hlid hne u1 srcRem hu1 hsrc
  obtain ⟨hn2, _, _⟩ :=
    u2_facts tasks X s tg p dx hn hget hlid hne u1 srcRem u2 hu1 hsrc hu2
  obtain ⟨han, hamem, _, _⟩ :=
    cross_arr_facts tasks X s tg p dx hn hget hlid hne u1 srcRem u2 tgtEx arr ins
      hu1 hsrc hu2 htgt harr
  rw [tasksIn_writeOrders_untouched hn2 han (fun a ha => (hamem a ha).1)
    (fun a ha => (hamem a ha).2) hLt]
  rw [hu2, tasksIn_writeOrders_untouched hn1 hsn (fun a ha => (hsmem a ha).1)
    (fun a ha => (hsmem a ha).2) hLs]
  rw [hu1]
  exact tasksIn_applyMoveFirst_other tasks X s tg p dx hn hget hlid hLs hLt

theorem cross_frame_untouched (tasks : List TaskItem) (X s tg : String)
    (p : Option TodayPatch) (dx : TaskItem)
    (hn : (idsOf tasks).Nodup) (hget : getTask tasks X = some dx)
    (hlid : dx.listId = s) (hne : s ≠ tg)
    (u1 srcRem u2 tgtEx arr : List TaskItem) (ins : Nat)
    (hu1 : u1 = applyMoveFirst tasks X tg p)
    (hsrc : srcRem = byOrder (u1.filter (fun t => t.listId = s)))
    (hu2 : u2 = writeOrders u1 srcRem 0)
    (htgt : tgtEx = byOrder (u2.filter (fun t => t.listId = tg ∧ t.taskId ≠ X)))
    (harr : arr = spliceIn tgtEx ins (applyPatch { dx with listId := tg } p))
    {t : TaskItem} (ht : t ∈ tasks) (hts : t.listId ≠ s) (htt : t.listId ≠ tg) :
    getTask (writeOrders u2 arr 0) t.taskId = some t := by
  have hdx_id : dx.taskId = X := taskId_of_getTask hget
  have hdx_mem : dx ∈ tasks := mem_of_getTask hget
  have hn1 : (idsOf u1).Nodup := by
    rw [hu1, idsOf_applyMoveFirst]; exact hn
  obtain ⟨hsn, hsmem, _, _, _⟩ :=
    srcRem_facts tasks X s tg p dx hn hget hlid hne u1 srcRem hu1 hsrc
  obtain ⟨hn2, _, _⟩ :=
    u2_facts tasks X s tg p dx hn hget hlid hne u1 srcRem u2 hu1 hsrc hu2
  obtain ⟨han, hamem, _, _⟩ :=
    cross_arr_facts tasks X s tg p dx hn hget hlid hne u1 srcRem u2 tgtEx arr ins
      hu1 hsrc hu2 htgt harr
  have hX : t.taskId ≠ X := by
    intro hXX
    have ht_dx : t = dx := eq_of_mem_of_taskId_eq hn ht hdx_mem (hXX.trans hdx_id.symm)
    rw [ht_dx, hlid] at hts
    exact hts rfl
  have hg1 : getTask u1 t.taskId = some t := by
    rw [hu1, getTask_applyMoveFirst_ne tasks X tg p t.taskId hX]
    exact getTask_of_mem hn ht
  have ht1 : t ∈ u1 := mem_of_getTask hg1
  have hnot1 : t.taskId ∉ idsOf srcRem := by
    intro hmem
    obtain ⟨a, ha, hid⟩ := List.mem_map.mp hmem
    obtain ⟨ha1, ha2⟩ := hsmem a ha
    have hat : a = t := eq_of_mem_of_taskId_eq hn1 ha1 ht1 hid
    rw [hat] at ha2
    exact hts ha2
  have hg2 : getTask u2 t.taskId = some t := by
    rw [hu2]
    exact getTask_writeOrders_untouched hn1 hsn ht1 hnot1
  have ht2 : t ∈ u2 := mem_of_getTask hg2
  have hnot2 : t.taskId ∉ idsOf arr := by
    intro hmem
    obtain ⟨a, ha, hid⟩ := List.mem_map.mp hmem
    obtain ⟨ha1, ha2⟩ := hamem a ha
    have hat : a = t := eq_of_mem_of_taskId_eq hn2 ha1 ht2 hid
    rw [hat] at ha2
    exact htt ha2
  exact getTask_writeOrders_untouched hn2 han ht2 hnot2

theorem tasksIn_same_other (tasks : List TaskItem) (X s : String) (dx : TaskItem)
    (hn : (idsOf tasks).Nodup) (hget : getTask tasks X = some dx)
    (hlid : dx.listId = s)
    (other arr : List TaskItem) (ins : Nat)
    (hother : other = byOrder (tasks.filter (fun t => t.listId = s ∧ t.taskId ≠ X)))
    (harr : arr = spliceIn other ins dx)
    {L : String} (hLs : L ≠ s) :
    tasksIn (writeOrders tasks arr 0) L = tasksIn tasks L := by
  obtain ⟨han, hamem, _⟩ :=
    same_list_arr_facts tasks X s dx hn hget hlid other arr ins hother harr
  exact tasksIn_writeOrders_untouched hn han (fun a ha => (hamem a ha).1)
    (fun a ha => (hamem a ha).2) hLs

theorem same_frame_untouched (tasks : List TaskItem) (X s : String) (dx : TaskItem)
    (hn : (idsOf tasks).Nodup) (hget : getTask tasks X = some dx)
    (hlid : dx.listId = s)
    (other arr : List TaskItem) (ins : Nat)
    (hother : other = byOrder (tasks.filter (fun t => t.listId = s ∧ t.taskId ≠ X)))
    (harr : arr = spliceIn other ins dx)
    {t : TaskItem} (ht : t ∈ tasks) (hts : t.listId ≠ s) :
    getTask (writeOrders tasks arr 0) t.taskId = some t := by
  obtain ⟨han, hamem, _⟩ :=
    same_list_arr_facts tasks X s dx hn hget hlid other arr ins hother harr
  have hnot : t.taskId ∉ idsOf arr := by
    intro hmem
    obtain ⟨a, ha, hid⟩ := List.mem_map.mp hmem
    obtain ⟨ha1, ha2⟩ := hamem a ha
    have hat : a = t := eq_of_mem_of_taskId_eq hn ha1 ht hid
    rw [hat] at ha2
    exact hts ha2
  exact getTask_writeOrders_untouched hn han ht hnot

theorem same_arr_length (tasks : List TaskItem) (X s : String) (dx : TaskItem)
    (hn : (idsOf tasks).Nodup) (hget : getTask tasks X = some dx)
    (hlid : dx.listId = s)
    (other arr : List TaskItem) (ins : Nat)
    (hother : other = byOrder (tasks.filter (fun t => t.listId = s ∧ t.taskId ≠ X)))
    (harr : arr = spliceIn other ins dx) :
    arr.length = (tasksIn tasks s).length ∧
      other.length + 1 = (tasksIn tasks s).length := by
  have hdx_id : dx.taskId = X := taskId_of_getTask hget
  have hdx_mem : dx ∈ tasks := mem_of_getTask hget
  have hfeq : tasks.filter (fun t => t.listId = s ∧ t.taskId ≠ X) =
      (tasksIn tasks s).filter (fun t => t.taskId ≠ dx.taskId) := by
    unfold tasksIn
    rw [List.filter_filter]
    apply List.filter_congr
    intro t _
    rw [hdx_id]
    simp [Bool.and_comm]
  have hother_len : other.length + 1 = (tasksIn tasks s).length := by
    rw [hother, (byOrder_perm _).length_eq, hfeq]
    exact length_filter_ne_id (nodup_idsOf_filter hn _)
      (mem_tasksIn.mpr ⟨hdx_mem, hlid⟩)
  constructor
  · rw [harr, length_spliceIn, hother_len]
  · exact hother_len

/-- C1: Order density invariant — under unique task ids, with the dragged
task present and belonging to the source list, any completed commit of the
Commit Engine preserves density for every list: afterwards the `order`
values of each list's tasks are exactly `{0, ..., n-1}` (the source and
target lists are renumbered densely outright; every other list is untouched
and keeps its previously dense orders). -/
theorem executeCommit_density (tasks : List TaskItem)
    (sourceTaskId sourceListId targetListId targetSlot : String)
    (p : Option TodayPatch) (dx : TaskItem)
    (hn : (idsOf tasks).Nodup)
    (hget : getTask tasks sourceTaskId = some dx)
    (hlid : dx.listId = sourceListId)
    (hdense : ∀ L, denseOrders tasks L) :
    ∃ ts', executeCommit tasks sourceTaskId sourceListId targetListId targetSlot p =
      some ts' ∧ ∀ L, denseOrders ts' L := by
  by_cases hst : sourceListId = targetListId
  · subst hst
    let other := byOrder (tasks.filter
      (fun t => t.listId = sourceListId ∧ t.taskId ≠ sourceTaskId))
    let ins := ((if targetSlot = "end:" ++ sourceListId then some other.length
      else idIndexIn other targetSlot).getD other.length)
    let arr := spliceIn other ins dx
    have hother : other = byOrder (tasks.filter
      (fun t => t.listId = sourceListId ∧ t.taskId ≠ sourceTaskId)) := rfl
    have hins : ins = ((if targetSlot = "end:" ++ sourceListId then some other.length
      else idIndexIn other targetSlot).getD other.length) := rfl
    have harr : arr = spliceIn other ins dx := rfl
    obtain ⟨han, hamem, hacov⟩ := same_list_arr_facts tasks sourceTaskId sourceListId
      dx hn hget hlid other arr ins hother harr
    refine ⟨writeOrders tasks arr 0, executeCommit_same_unfold tasks sourceTaskId
      sourceListId targetSlot p dx hget other arr ins hother hins harr, ?_⟩
    intro L
    by_cases hL : L = sourceListId
    · subst hL
      exact (denseOrders_writeOrders hn han (fun a ha => (hamem a ha).1)
        (fun a ha => (hamem a ha).2) hacov).1
    · have heq := tasksIn_same_other tasks sourceTaskId sourceListId dx hn hget hlid
        other arr ins hother harr hL
      unfold denseOrders ordersIn
      rw [heq]
      exact hdense L
  · let u1 := applyMoveFirst tasks sourceTaskId targetListId p
    let srcRem := byOrder (u1.filter (fun t => t.listId = sourceListId))
    let u2 := writeOrders u1 srcRem 0
    let tgtEx := byOrder (u2.filter
      (fun t => t.listId = targetListId ∧ t.taskId ≠ sourceTaskId))
    let ins := ((if targetSlot = "end:" ++ targetListId then some tgtEx.length
      else idIndexIn tgtEx targetSlot).getD tgtEx.length)
    let dx2 := applyPatch { dx with listId := targetListId } p
    let arr := spliceIn tgtEx ins dx2
    have hu1 : u1 = applyMoveFirst tasks sourceTaskId targetListId p := rfl
    have hsrc : srcRem = byOrder (u1.filter (fun t => t.listId = sourceListId)) := rfl
    have hu2 : u2 = writeOrders u1 srcRem 0 := rfl
    have htgt : tgtEx = byOrder (u2.filter
      (fun t => t.listId = targetListId ∧ t.taskId ≠ sourceTaskId)) := rfl
    have hins : ins = ((if targetSlot = "end:" ++ targetListId then some tgtEx.length
      else idIndexIn tgtEx targetSlot).getD tgtEx.length) := rfl
    have harr : arr = spliceIn tgtEx ins dx2 := rfl
    have hn1 : (idsOf u1).Nodup := by
      rw [hu1, idsOf_applyMoveFirst]; exact hn
    obtain ⟨hsn, hsmem, hXnot, hscov, hslen⟩ := srcRem_facts tasks sourceTaskId
      sourceListId targetListId p dx hn hget hlid hst u1 srcRem hu1 hsrc
    obtain ⟨hn2, hids2, hget2⟩ := u2_facts tasks sourceTaskId sourceListId
      targetListId p dx hn hget hlid hst u1 srcRem u2 hu1 hsrc hu2
    obtain ⟨han, hamem, hacov, halen⟩ := cross_arr_facts tasks sourceTaskId
      sourceListId targetListId p dx hn hget hlid hst u1 srcRem u2 tgtEx arr ins
      hu1 hsrc hu2 htgt harr
    refine ⟨writeOrders u2 arr 0, executeCommit_cross_unfold tasks sourceTaskId
      sourceListId targetListId targetSlot p dx hget hst u1 u2 srcRem tgtEx arr
      ins dx2 hu1 hsrc hu2 htgt hins hget2 harr, ?_⟩
    intro L
    by_cases hLt : L = targetListId
    · subst hLt
      exact (denseOrders_writeOrders hn2 han (fun a ha => (hamem a ha).1)
        (fun a ha => (hamem a ha).2) hacov).1
    · by_cases hLs : L = sourceListId
      · subst hLs
        have heq := tasksIn_writeOrders_untouched hn2 han
          (fun a ha => (hamem a ha).1) (fun a ha => (hamem a ha).2) hLt
        unfold denseOrders ordersIn
        rw [heq]
        have hdense2 := (denseOrders_writeOrders hn1 hsn
          (fun a ha => (hsmem a ha).1) (fun a ha => (hsmem a ha).2) hscov).1
        unfold denseOrders ordersIn at hdense2
        exact hdense2
      · have heq := tasksIn_cross_other tasks sourceTaskId sourceListId targetListId
          p dx hn hget hlid hst u1 srcRem u2 tgtEx arr ins hu1 hsrc hu2 htgt harr
          hLs hLt
        unfold denseOrders ordersIn
        rw [heq]
        exact hdense L

theorem idIndexIn_lt_length {l : List TaskItem} {tid : String} {i : Nat}
    (h : idIndexIn l tid = some i) : i < l.length := by
  obtain ⟨u, y, v, hl, hlen, _, _⟩ := idIndexIn_eq_some_split h
  subst hl
  rw [← hlen]
  simp

/-- C10 (amended): commit frame condition — under unique task ids, when the
task named by the source id exists and belongs to the source list, a commit
completes with exactly the same task identifiers (in the same positions: no
task is created, deleted, or duplicated), and every task whose list is
neither the source nor the target list is unchanged in all of its fields. -/
theorem executeCommit_frame (tasks : List TaskItem)
    (sourceTaskId sourceListId targetListId targetSlot : String)
    (p : Option TodayPatch) (dx : TaskItem)
    (hn : (idsOf tasks).Nodup)
    (hget : getTask tasks sourceTaskId = some dx)
    (hlid : dx.listId = sourceListId) :
    ∃ ts', executeCommit tasks sourceTaskId sourceListId targetListId targetSlot p =
      some ts' ∧ idsOf ts' = idsOf tasks ∧
      ∀ t ∈ tasks, t.listId ≠ sourceListId → t.listId ≠ targetListId →
        getTask ts' t.taskId = some t := by
  by_cases hst : sourceListId = targetListId
  · subst hst
    let other := byOrder (tasks.filter
      (fun t => t.listId = sourceListId ∧ t.taskId ≠ sourceTaskId))
    let ins := ((if targetSlot = "end:" ++ sourceListId then some other.length
      else idIndexIn other targetSlot).getD other.length)
    let arr := spliceIn other ins dx
    have hother : other = byOrder (tasks.filter
      (fun t => t.listId = sourceListId ∧ t.taskId ≠ sourceTaskId)) := rfl
    have hins : ins = ((if targetSlot = "end:" ++ sourceListId then some other.length
      else idIndexIn other targetSlot).getD other.length) := rfl
    have harr : arr = spliceIn other ins dx := rfl
    refine ⟨writeOrders tasks arr 0, executeCommit_same_unfold tasks sourceTaskId
      sourceListId targetSlot p dx hget other arr ins hother hins harr, ?_, ?_⟩
    · rw [idsOf_writeOrders]
    · intro t ht hts _
      exact same_frame_untouched tasks sourceTaskId sourceListId dx hn hget hlid
        other arr ins hother harr ht hts
  · let u1 := applyMoveFirst tasks sourceTaskId targetListId p
    let srcRem := byOrder (u1.filter (fun t => t.listId = sourceListId))
    let u2 := writeOrders u1 srcRem 0
    let tgtEx := byOrder (u2.filter
      (fun t => t.listId = targetListId ∧ t.taskId ≠ sourceTaskId))
    let ins := ((if targetSlot = "end:" ++ targetListId then some tgtEx.length
      else idIndexIn tgtEx targetSlot).getD tgtEx.length)
    let dx2 := applyPatch { dx with listId := targetListId } p
    let arr := spliceIn tgtEx ins dx2
    have hu1 : u1 = applyMoveFirst tasks sourceTaskId targetListId p := rfl
    have hsrc : srcRem = byOrder (u1.filter (fun t => t.listId = sourceListId)) := rfl
    have hu2 : u2 = writeOrders u1 srcRem 0 := rfl
    have htgt : tgtEx = byOrder (u2.filter
      (fun t => t.listId = targetListId ∧ t.taskId ≠ sourceTaskId)) := rfl
    have hins : ins = ((if targetSlot = "end:" ++ targetListId then some tgtEx.length
      else idIndexIn tgtEx targetSlot).getD tgtEx.length) := rfl
    have harr : arr = spliceIn tgtEx ins dx2 := rfl
    obtain ⟨hn2, hids2, hget2⟩ := u2_facts tasks sourceTaskId sourceListId
      targetListId p dx hn hget hlid hst u1 srcRem u2 hu1 hsrc hu2
    refine ⟨writeOrders u2 arr 0, executeCommit_cross_unfold tasks sourceTaskId
      sourceListId targetListId targetSlot p dx hget hst u1 u2 srcRem tgtEx arr
      ins dx2 hu1 hsrc hu2 htgt hins hget2 harr, ?_, ?_⟩
    · rw [idsOf_writeOrders]
      exact hids2
    · intro t ht hts htt
      exact cross_frame_untouched tasks sourceTaskId sourceListId targetListId p dx
        hn hget hlid hst u1 srcRem u2 tgtEx arr ins hu1 hsrc hu2 htgt harr ht hts htt

/-- C4: Cross-list move correctness — moving task X from list A to a
different list B at slot "before item Y" (with unique task ids and Y's id
not aliasing the end-of-list sentinel string) yields: A loses exactly X
(one fewer task, dense orders), B gains exactly X (one more task, dense
orders), X now belongs to B, and X sits immediately before Y in B's order
sequence. -/
theorem executeCommit_cross_list_move (tasks : List TaskItem) (X Y : TaskItem)
    (A B : String) (p : Option TodayPatch)
    (hn : (idsOf tasks).Nodup)
    (hX : X ∈ tasks) (hXl : X.listId = A)
    (hY : Y ∈ tasks) (hYl : Y.listId = B)
    (hAB : A ≠ B) (hXY : X.taskId ≠ Y.taskId)
    (hYslot : Y.taskId ≠ "end:" ++ B) :
    ∃ ts' X' Y',
      executeCommit tasks X.taskId A B Y.taskId p = some ts' ∧
      (tasksIn ts' A).length + 1 = (tasksIn tasks A).length ∧
      (tasksIn ts' B).length = (tasksIn tasks B).length + 1 ∧
      denseOrders ts' A ∧ denseOrders ts' B ∧
      getTask ts' X.taskId = some X' ∧ getTask ts' Y.taskId = some Y' ∧
      X'.listId = B ∧ Y'.listId = B ∧ X'.order + 1 = Y'.order := by
  have hget : getTask tasks X.taskId = some X := getTask_of_mem hn hX
  let u1 := applyMoveFirst tasks X.taskId B p
  let srcRem := byOrder (u1.filter (fun t => t.listId = A))
  let u2 := writeOrders u1 srcRem 0
  let tgtEx := byOrder (u2.filter (fun t => t.listId = B ∧ t.taskId ≠ X.taskId))
  let dx2 := applyPatch { X with listId := B } p
  have hu1 : u1 = applyMoveFirst tasks X.taskId B p := rfl
  have hsrc : srcRem = byOrder (u1.filter (fun t => t.listId = A)) := rfl
  have hu2 : u2 = writeOrders u1 srcRem 0 := rfl
  have htgt : tgtEx = byOrder (u2.filter
    (fun t => t.listId = B ∧ t.taskId ≠ X.taskId)) := rfl
  have hn1 : (idsOf u1).Nodup := by
    rw [hu1, idsOf_applyMoveFirst]; exact hn
  obtain ⟨hsn, hsmem, hXnot, hscov, hslen⟩ := srcRem_facts tasks X.taskId A B p X
    hn hget hXl hAB u1 srcRem hu1 hsrc
  obtain ⟨hn2, hids2, hget2⟩ := u2_facts tasks X.taskId A B p X
    hn hget hXl hAB u1 srcRem u2 hu1 hsrc hu2
  obtain ⟨htn, htmem, hXtnot, htlen, htiff⟩ := tgtEx_facts tasks X.taskId A B p X
    hn hget hXl hAB u1 srcRem u2 tgtEx hu1 hsrc hu2 htgt
  -- Y sits in the target list snapshot at a definite index
  have hYin : Y ∈ tgtEx := (htiff Y).mpr (mem_tasksIn.mpr ⟨hY, hYl⟩)
  obtain ⟨iY, hiY⟩ := idIndexIn_eq_some_of_mem (mem_idsOf hYin)
  have hiY_lt : iY < tgtEx.length := idIndexIn_lt_length hiY
  -- the splice index chosen by the commit is exactly iY
  have hins : ((if Y.taskId = "end:" ++ B then some tgtEx.length
      else idIndexIn tgtEx Y.taskId).getD tgtEx.length) = iY := by
    rw [if_neg hYslot, hiY]
    rfl
  let arr := spliceIn tgtEx iY dx2
  have harr : arr = spliceIn tgtEx iY dx2 := rfl
  have hins2 : iY = ((if Y.taskId = "end:" ++ B then some tgtEx.length
      else idIndexIn tgtEx Y.taskId).getD tgtEx.length) := hins.symm
  obtain ⟨han, hamem, hacov, halen⟩ := cross_arr_facts tasks X.taskId A B p X
    hn hget hXl hAB u1 srcRem u2 tgtEx arr iY hu1 hsrc hu2 htgt harr
  have hdx2_id : dx2.taskId = X.taskId := by
    rw [taskId_applyPatch]
  have hdx2_lid : dx2.listId = B := by
    rw [listId_applyPatch]
  -- positions of X and Y in the renumber array
  have hidxX : idIndexIn arr X.taskId = some iY := by
    rw [harr, ← hdx2_id]
    exact idIndexIn_spliceIn_self (Nat.le_of_lt hiY_lt) (hdx2_id ▸ hXtnot)
  have hidxY : idIndexIn arr Y.taskId = some (iY + 1) := by
    rw [harr]
    exact idIndexIn_spliceIn_found hiY (hdx2_id ▸ (fun h => hXY h))
  -- Y is untouched up to the final renumber
  have hgY1 : getTask u1 Y.taskId = some Y := by
    rw [hu1, getTask_applyMoveFirst_ne tasks X.taskId B p Y.taskId
      (fun h => hXY h.symm)]
    exact getTask_of_mem hn hY
  have hY1 : Y ∈ u1 := mem_of_getTask hgY1
  have hYnot_src : Y.taskId ∉ idsOf srcRem := by
    intro hmem
    obtain ⟨a, ha, hid⟩ := List.mem_map.mp hmem
    obtain ⟨ha1, ha2⟩ := hsmem a ha
    have hat : a = Y := eq_of_mem_of_taskId_eq hn1 ha1 hY1 hid
    rw [hat, hYl] at ha2
    exact hAB ha2.symm
  have hgY2 : getTask u2 Y.taskId = some Y := by
    rw [hu2]
    exact getTask_writeOrders_untouched hn1 hsn hY1 hYnot_src
  -- final values of X and Y
  have hgX' : getTask (writeOrders u2 arr 0) X.taskId =
      some (orderPatch arr 0 dx2) := by
    rw [getTask_writeOrders hn2 han, hget2]
    rfl
  have hgY' : getTask (writeOrders u2 arr 0) Y.taskId =
      some (orderPatch arr 0 Y) := by
    rw [getTask_writeOrders hn2 han, hgY2]
    rfl
  refine ⟨writeOrders u2 arr 0, orderPatch arr 0 dx2, orderPatch arr 0 Y,
    executeCommit_cross_unfold tasks X.taskId A B Y.taskId p X hget hAB
      u1 u2 srcRem tgtEx arr iY dx2 hu1 hsrc hu2 htgt hins2 hget2 harr,
    ?_, ?_, ?_, ?_, hgX', hgY', ?_, ?_, ?_⟩
  · -- source list count
    have heq := tasksIn_writeOrders_untouched hn2 han
      (fun a ha => (hamem a ha).1) (fun a ha => (hamem a ha).2) hAB
    rw [heq]
    have hlen2 := (denseOrders_writeOrders hn1 hsn
      (fun a ha => (hsmem a ha).1) (fun a ha => (hsmem a ha).2) hscov).2
    have heq2 : tasksIn u2 A = tasksIn (writeOrders u1 srcRem 0) A := by rw [hu2]
    rw [heq2, hlen2]
    exact hslen
  · -- target list count
    have hlen2 := (denseOrders_writeOrders hn2 han
      (fun a ha => (hamem a ha).1) (fun a ha => (hamem a ha).2) hacov).2
    rw [hlen2, halen]
  · -- source density
    have heq := tasksIn_writeOrders_untouched hn2 han
      (fun a ha => (hamem a ha).1) (fun a ha => (hamem a ha).2) hAB
    unfold denseOrders ordersIn
    rw [heq]
    have hdense2 := (denseOrders_writeOrders hn1 hsn
      (fun a ha => (hsmem a ha).1) (fun a ha => (hsmem a ha).2) hscov).1
    unfold denseOrders ordersIn at hdense2
    exact hdense2
  · -- target density
    exact (denseOrders_writeOrders hn2 han (fun a ha => (hamem a ha).1)
      (fun a ha => (hamem a ha).2) hacov).1
  · -- X now lives in B
    rw [listId_orderPatch]
    exact hdx2_lid
  · -- Y still lives in B
    rw [listId_orderPatch]
    exact hYl
  · -- X immediately before Y
    have hoX : (orderPatch arr 0 dx2).order = (iY : Int) := by
      unfold orderPatch
      rw [hdx2_id, hidxX]
      simp [Int.ofNat_eq_coe]
    have hoY : (orderPatch arr 0 Y).order = ((iY + 1 : Nat) : Int) := by
      unfold orderPatch
      rw [hidxY]
      simp [Int.ofNat_eq_coe]
    rw [hoX, hoY]
    omega

theorem idIndexIn_append_self {l : List TaskItem} {x : TaskItem}
    (hx : x.taskId ∉ idsOf l) :
    idIndexIn (l ++ [x]) x.taskId = some l.length := by
  rw [idIndexIn_append, idIndexIn_eq_none hx]
  rw [idIndexIn_cons]
  simp

theorem le_of_dense_top {ts' : List TaskItem} {L : String} {v : Int}
    (hd : denseOrders ts' L) (hv : v + 1 = ((tasksIn ts' L).length : Int)) :
    ∀ t ∈ tasksIn ts' L, t.order ≤ v := by
  intro t ht
  have hmem : t.order ∈ ordersIn ts' L := List.mem_map_of_mem _ ht
  have hmem2 := (hd.mem_iff).mp hmem
  obtain ⟨_, hlt⟩ := mem_rangeInt_lt hmem2
  omega

/-- C5: Stale-slot fallback — under unique task ids, with the dragged task
present and belonging to the source list, a commit whose `targetSlot` names
an identifier that exists in no task of the target list does not throw
and appends the dragged task at the end of the target list: it receives
the greatest order of the (dense) target list, every other target task
ordering strictly below it. -/
theorem executeCommit_stale_slot_fallback (tasks : List TaskItem)
    (sourceTaskId sourceListId targetListId targetSlot : String)
    (p : Option TodayPatch) (dx : TaskItem)
    (hn : (idsOf tasks).Nodup)
    (hget : getTask tasks sourceTaskId = some dx)
    (hlid : dx.listId = sourceListId)
    (hstale : ∀ t ∈ tasks, t.listId = targetListId → t.taskId ≠ targetSlot) :
    ∃ ts' X', executeCommit tasks sourceTaskId sourceListId targetListId targetSlot p =
      some ts' ∧ getTask ts' sourceTaskId = some X' ∧ X'.listId = targetListId ∧
      X'.order + 1 = ((tasksIn ts' targetListId).length : Int) ∧
      denseOrders ts' targetListId ∧
      ∀ t ∈ tasksIn ts' targetListId, t.order ≤ X'.order := by
  have hdx_id : dx.taskId = sourceTaskId := taskId_of_getTask hget
  by_cases hst : sourceListId = targetListId
  · subst hst
    let other := byOrder (tasks.filter
      (fun t => t.listId = sourceListId ∧ t.taskId ≠ sourceTaskId))
    have hother : other = byOrder (tasks.filter
      (fun t => t.listId = sourceListId ∧ t.taskId ≠ sourceTaskId)) := rfl
    have hOnone : idIndexIn other targetSlot = none := by
      apply idIndexIn_eq_none
      intro hmem
      obtain ⟨a, ha, hid⟩ := List.mem_map.mp hmem
      rw [hother, mem_byOrder, List.mem_filter] at ha
      obtain ⟨ha1, ha2⟩ := ha
      simp only [decide_eq_true_eq] at ha2
      exact hstale a ha1 ha2.1 hid
    have hins_val : ((if targetSlot = "end:" ++ sourceListId then some other.length
        else idIndexIn other targetSlot).getD other.length) = other.length := by
      by_cases hE : targetSlot = "end:" ++ sourceListId
      · rw [if_pos hE]; rfl
      · rw [if_neg hE, hOnone]; rfl
    let arr := other ++ [dx]
    have harr : arr = spliceIn other other.length dx := by
      rw [spliceIn_at_length]
    obtain ⟨han, hamem, hacov⟩ := same_list_arr_facts tasks sourceTaskId sourceListId
      dx hn hget hlid other arr other.length hother harr
    obtain ⟨hd, hlen⟩ := denseOrders_writeOrders hn han (fun a ha => (hamem a ha).1)
      (fun a ha => (hamem a ha).2) hacov
    have hdx_not : dx.taskId ∉ idsOf other := by
      intro hmem
      obtain ⟨a, ha, hid⟩ := List.mem_map.mp hmem
      rw [hother, mem_byOrder, List.mem_filter] at ha
      obtain ⟨_, ha2⟩ := ha
      simp only [decide_eq_true_eq] at ha2
      exact ha2.2 (hid.trans hdx_id)
    have hidx : idIndexIn arr dx.taskId = some other.length :=
      idIndexIn_append_self hdx_not
    have hgX : getTask (writeOrders tasks arr 0) sourceTaskId =
        some (orderPatch arr 0 dx) := by
      rw [getTask_writeOrders hn han, hget]
      rfl
    have hoX : (orderPatch arr 0 dx).order = (other.length : Int) := by
      unfold orderPatch
      rw [hidx]
      norm_num
    have hlen_arr : arr.length = other.length + 1 := by
      show (other ++ [dx]).length = other.length + 1
      simp
    refine ⟨writeOrders tasks arr 0, orderPatch arr 0 dx,
      executeCommit_same_unfold tasks sourceTaskId sourceListId targetSlot p dx hget
        other arr other.length hother hins_val.symm harr, hgX, ?_, ?_, hd, ?_⟩
    · rw [listId_orderPatch]
      exact hlid
    · rw [hoX, hlen, hlen_arr]
      omega
    · apply le_of_dense_top hd
      rw [hoX, hlen, hlen_arr]
      omega
  · let u1 := applyMoveFirst tasks sourceTaskId targetListId p
    let srcRem := byOrder (u1.filter (fun t => t.listId = sourceListId))
    let u2 := writeOrders u1 srcRem 0
    let tgtEx := byOrder (u2.filter
      (fun t => t.listId = targetListId ∧ t.taskId ≠ sourceTaskId))
    let dx2 := applyPatch { dx with listId := targetListId } p
    have hu1 : u1 = applyMoveFirst tasks sourceTaskId targetListId p := rfl
    have hsrc : srcRem = byOrder (u1.filter (fun t => t.listId = sourceListId)) := rfl
    have hu2 : u2 = writeOrders u1 srcRem 0 := rfl
    have htgt : tgtEx = byOrder (u2.filter
      (fun t => t.listId = targetListId ∧ t.taskId ≠ sourceTaskId)) := rfl
    obtain ⟨hn2, hids2, hget2⟩ := u2_facts tasks sourceTaskId sourceListId
      targetListId p dx hn hget hlid hst u1 srcRem u2 hu1 hsrc hu2
    obtain ⟨htn, htmem, hXtnot, htlen, htiff⟩ := tgtEx_facts tasks sourceTaskId
      sourceListId targetListId p dx hn hget hlid hst u1 srcRem u2 tgtEx
      hu1 hsrc hu2 htgt
    have hTnone : idIndexIn tgtEx targetSlot = none := by
      apply idIndexIn_eq_none
      intro hmem
      obtain ⟨a, ha, hid⟩ := List.mem_map.mp hmem
      have ham := (htiff a).mp ha
      obtain ⟨ha1, ha2⟩ := mem_tasksIn.mp ham
      exact hstale a ha1 ha2 hid
    have hins_val : ((if targetSlot = "end:" ++ targetListId then some tgtEx.length
        else idIndexIn tgtEx targetSlot).getD tgtEx.length) = tgtEx.length := by
      by_cases hE : targetSlot = "end:" ++ targetListId
      · rw [if_pos hE]; rfl
      · rw [if_neg hE, hTnone]; rfl
    let arr := tgtEx ++ [dx2]
    have harr : arr = spliceIn tgtEx tgtEx.length dx2 := by
      rw [spliceIn_at_length]
    obtain ⟨han, hamem, hacov, halen⟩ := cross_arr_facts tasks sourceTaskId
      sourceListId targetListId p dx hn hget hlid hst u1 srcRem u2 tgtEx arr
      tgtEx.length hu1 hsrc hu2 htgt harr
    obtain ⟨hd, hlen⟩ := denseOrders_writeOrders hn2 han (fun a ha => (hamem a ha).1)
      (fun a ha => (hamem a ha).2) hacov
    have hdx2_id : dx2.taskId = sourceTaskId := by
      rw [taskId_applyPatch]
      show dx.taskId = sourceTaskId
      exact hdx_id
    have hidx : idIndexIn arr sourceTaskId = some tgtEx.length := by
      rw [← hdx2_id]
      exact idIndexIn_append_self (hdx2_id ▸ hXtnot)
    have hgX : getTask (writeOrders u2 arr 0) sourceTaskId =
        some (orderPatch arr 0 dx2) := by
      rw [getTask_writeOrders hn2 han, hget2]
      rfl
    have hoX : (orderPatch arr 0 dx2).order = (tgtEx.length : Int) := by
      unfold orderPatch
      rw [hdx2_id, hidx]
      norm_num
    have hlen_arr : arr.length = tgtEx.length + 1 := by
      show (tgtEx ++ [dx2]).length = tgtEx.length + 1
      simp
    refine ⟨writeOrders u2 arr 0, orderPatch arr 0 dx2,
      executeCommit_cross_unfold tasks sourceTaskId sourceListId targetListId
        targetSlot p dx hget hst u1 u2 srcRem tgtEx arr tgtEx.length dx2
        hu1 hsrc hu2 htgt hins_val.symm hget2 harr, hgX, ?_, ?_, hd, ?_⟩
    · rw [listId_orderPatch]
      rw [listId_applyPatch]
    · rw [hoX, hlen, hlen_arr]
      omega
    · apply le_of_dense_top hd
      rw [hoX, hlen, hlen_arr]
      omega

/-- C6: Pending-drop cancellation purity — a drop committed onto the Today
list is intercepted as pending (the four drop parameters are stored, the
task collection untouched), and a subsequent `cancelPendingDrop` leaves the
task collection exactly as it was before the drop. -/
theorem cancelPendingDrop_purity (st : AppState)
    (sourceTaskId sourceListId targetSlot : String) :
    ∃ st', commitDrop st sourceTaskId sourceListId TODAY_LIST_ID targetSlot =
        some st' ∧
      st'.tasks = st.tasks ∧
      st'.pendingDrop =
        some (PendingDrop.mk sourceTaskId sourceListId TODAY_LIST_ID targetSlot) ∧
      (cancelPendingDrop st').tasks = st.tasks ∧
      (cancelPendingDrop st').pendingDrop = none := by
  refine ⟨{ st with pendingDrop := some (PendingDrop.mk sourceTaskId sourceListId
    TODAY_LIST_ID targetSlot) }, ?_, rfl, rfl, rfl, rfl⟩
  unfold commitDrop
  rw [if_pos rfl]

/-- C9: Add-flow initial order — adding a task into a nonempty target list
appends it with order `(minimum existing order in that list) - 1`, which
sorts strictly before every existing task of that list. -/
theorem handleAddTask_initial_order (prev : List TaskItem) (task : TaskItem)
    (hne : tasksIn prev task.listId ≠ []) :
    ∃ m : Int, ((tasksIn prev task.listId).map (fun t => t.order)).min? = some m ∧
      handleAddTask prev task = prev ++ [{ task with order := m - 1 }] ∧
      ∀ t ∈ tasksIn prev task.listId, m - 1 < t.order := by
  haveI : Std.Antisymm (fun (x1 x2 : Int) => x1 ≤ x2) :=
    ⟨fun h1 h2 => le_antisymm h1 h2⟩
  have hmap_ne : ((tasksIn prev task.listId).map (fun t => t.order)) ≠ [] := by
    simpa using hne
  cases hmin : ((tasksIn prev task.listId).map (fun t => t.order)).min? with
  | none =>
      rw [List.min?_eq_none_iff] at hmin
      exact absurd hmin hmap_ne
  | some m =>
      have hmin2 := hmin
      rw [List.min?_eq_some_iff (fun a => le_refl a) (fun a b => min_choice a b)
        (fun a b c => le_min_iff)] at hmin2
      obtain ⟨hm_mem, hm_le⟩ := hmin2
      refine ⟨m, rfl, ?_, ?_⟩
      · unfold handleAddTask
        have hlen : (prev.filter (fun t => t.listId = task.listId)).length > 0 := by
          apply List.length_pos.mpr
          exact hne
        simp only [hlen, if_pos]
        rw [show (prev.filter (fun t => t.listId = task.listId)).map
            (fun t => t.order) = (tasksIn prev task.listId).map (fun t => t.order)
          from rfl, hmin]
        rfl
      · intro t ht
        have hord : t.order ∈ (tasksIn prev task.listId).map (fun t => t.order) :=
          List.mem_map_of_mem _ ht
        have := hm_le t.order hord
        omega

/-- C8 counterexample: with a viewport whose top edge is at y = 100 and
whose height is 400, a finger at y = 10 lies outside both 80-pixel hot
zones (it is above the viewport altogether), yet `checkAutoScroll` scrolls
upward — the claim's "outside both hot zones ⇒ no-op" clause fails on the
code, which scrolls whenever the finger is above the top threshold. -/
theorem checkAutoScroll_outside_zones_counterexample :
    ¬ inTopHotZone (ScrollRect.mk 100 400) 10 ∧
    ¬ inBottomHotZone (ScrollRect.mk 100 400) 10 ∧
    checkAutoScroll (some (ScrollRect.mk 100 400)) 10 0 ≠ 0 := by
  refine ⟨?_, ?_, ?_⟩
  · unfold inTopHotZone
    norm_num
  · unfold inBottomHotZone
    norm_num
  · unfold checkAutoScroll
    norm_num

/-- C8 (amended): auto-scroll behaviour — whenever the finger is above the
top hot-zone boundary (`pageY + 80`), including above the viewport, the
controller scrolls upward by `(boundary - fingerY) * 0.3`; otherwise, when
it is below the bottom hot-zone boundary (`pageY + height - 80`), including
below the viewport, it scrolls downward by `(fingerY - boundary) * 0.3`;
when the finger lies on or between the two boundaries the scroll offset is
unchanged. -/
theorem checkAutoScroll_characterization (m : ScrollRect) (fingerY scrollY : ℚ) :
    (fingerY < m.pageY + 80 →
      checkAutoScroll (some m) fingerY scrollY =
        scrollY - (m.pageY + 80 - fingerY) * (3 / 10)) ∧
    (¬ fingerY < m.pageY + 80 → m.pageY + m.height - 80 < fingerY →
      checkAutoScroll (some m) fingerY scrollY =
        scrollY + (fingerY - (m.pageY + m.height - 80)) * (3 / 10)) ∧
    (m.pageY + 80 ≤ fingerY → fingerY ≤ m.pageY + m.height - 80 →
      checkAutoScroll (some m) fingerY scrollY = scrollY) := by
  simp only [checkAutoScroll]
  refine ⟨?_, ?_, ?_⟩
  · intro h1
    rw [if_pos h1]
  · intro h1 h2
    rw [if_neg h1, if_pos h2]
  · intro h1 h2
    rw [if_neg (not_lt.mpr h1), if_neg (not_lt.mpr h2)]

/-! ### Lemmas about the hit-test -/

theorem findListAt_none {layouts : List ListLayout} {scrollNow fingerY : ℚ}
    (h : ∀ L ∈ layouts, ¬ listSpanContains scrollNow L fingerY) :
    findListAt layouts scrollNow fingerY = none := by
  induction layouts with
  | nil => rfl
  | cons layout rest ih =>
      unfold findListAt
      rw [if_neg (h layout (by simp))]
      exact ih (fun L hL => h L (by simp [hL]))

theorem findListAt_unique {layouts : List ListLayout} {scrollNow fingerY : ℚ}
    {L : ListLayout} (hL : L ∈ layouts)
    (hc : listSpanContains scrollNow L fingerY)
    (huniq : ∀ L' ∈ layouts, listSpanContains scrollNow L' fingerY → L' = L) :
    findListAt layouts scrollNow fingerY = some L.listId := by
  induction layouts with
  | nil => simp at hL
  | cons layout rest ih =>
      unfold findListAt
      by_cases hcl : listSpanContains scrollNow layout fingerY
      · rw [if_pos hcl]
        rw [huniq layout (by simp) hcl]
      · rw [if_neg hcl]
        have hL' : L ∈ rest := by
          rcases List.mem_cons.mp hL with rfl | h
          · exact absurd hc hcl
          · exact h
        exact ih hL' (fun L' hL' hc' => huniq L' (by simp [hL']) hc')

theorem findListAt_some_mem {layouts : List ListLayout} {scrollNow fingerY : ℚ}
    {lid : String} (h : findListAt layouts scrollNow fingerY = some lid) :
    ∃ L ∈ layouts, L.listId = lid ∧ listSpanContains scrollNow L fingerY := by
  induction layouts with
  | nil => simp [findListAt] at h
  | cons layout rest ih =>
      unfold findListAt at h
      by_cases hcl : listSpanContains scrollNow layout fingerY
      · rw [if_pos hcl] at h
        exact ⟨layout, by simp, Option.some.inj h, hcl⟩
      · rw [if_neg hcl] at h
        obtain ⟨L, hL, h1, h2⟩ := ih h
        exact ⟨L, by simp [hL], h1, h2⟩

theorem firstBelowMid_cases (items : List ItemLayout) (scrollNow fingerY : ℚ)
    (lid : String) :
    firstBelowMid items scrollNow fingerY lid = "end:" ++ lid ∨
      ∃ K ∈ items, firstBelowMid items scrollNow fingerY lid = K.taskId ∧
        fingerY < itemMidY scrollNow K := by
  induction items with
  | nil => exact Or.inl rfl
  | cons it rest ih =>
      unfold firstBelowMid
      by_cases hm : fingerY < itemMidY scrollNow it
      · rw [if_pos hm]
        exact Or.inr ⟨it, by simp, rfl, hm⟩
      · rw [if_neg hm]
        rcases ih with h | ⟨K, hK, h1, h2⟩
        · exact Or.inl h
        · exact Or.inr ⟨K, by simp [hK], h1, h2⟩

theorem firstBelowMid_no_sat {items : List ItemLayout} {scrollNow fingerY : ℚ}
    {lid : String} (h : ∀ it ∈ items, ¬ fingerY < itemMidY scrollNow it) :
    firstBelowMid items scrollNow fingerY lid = "end:" ++ lid := by
  induction items with
  | nil => rfl
  | cons it rest ih =>
      unfold firstBelowMid
      rw [if_neg (h it (by simp))]
      exact ih (fun j hj => h j (by simp [hj]))

theorem firstBelowMid_min_sat {items : List ItemLayout} {scrollNow fingerY : ℚ}
    {lid : String}
    (hsorted : items.Pairwise
      (fun a b => itemLiveY scrollNow a ≤ itemLiveY scrollNow b))
    {K : ItemLayout} (hK : K ∈ items) (hKsat : fingerY < itemMidY scrollNow K) :
    ∃ K', K' ∈ items ∧ firstBelowMid items scrollNow fingerY lid = K'.taskId ∧
      fingerY < itemMidY scrollNow K' ∧
      ∀ J ∈ items, fingerY < itemMidY scrollNow J →
        itemLiveY scrollNow K' ≤ itemLiveY scrollNow J := by
  induction items with
  | nil => simp at hK
  | cons it rest ih =>
      have hhead := List.pairwise_cons.mp hsorted
      unfold firstBelowMid
      by_cases hm : fingerY < itemMidY scrollNow it
      · rw [if_pos hm]
        refine ⟨it, by simp, rfl, hm, ?_⟩
        intro J hJ _
        rcases List.mem_cons.mp hJ with rfl | hJr
        · exact le_refl _
        · exact hhead.1 J hJr
      · rw [if_neg hm]
        have hKr : K ∈ rest := by
          rcases List.mem_cons.mp hK with rfl | h
          · exact absurd hKsat hm
          · exact h
        obtain ⟨K', h1, h2, h3, h4⟩ := ih hhead.2 hKr
        refine ⟨K', by simp [h1], h2, h3, ?_⟩
        intro J hJ hJsat
        rcases List.mem_cons.mp hJ with rfl | hJr
        · exact absurd hJsat hm
        · exact h4 J hJr hJsat

theorem mem_sortItems {a : ItemLayout} {l : List ItemLayout} {scrollNow : ℚ} :
    a ∈ l.insertionSort
      (fun a b => itemLiveY scrollNow a ≤ itemLiveY scrollNow b) ↔ a ∈ l :=
  (List.perm_insertionSort _ l).mem_iff

theorem sortItems_liveY_sorted (items : List ItemLayout) (scrollNow : ℚ) :
    (items.insertionSort
      (fun a b => itemLiveY scrollNow a ≤ itemLiveY scrollNow b)).Pairwise
      (fun a b => itemLiveY scrollNow a ≤ itemLiveY scrollNow b) := by
  haveI ht : IsTotal ItemLayout
      (fun a b => itemLiveY scrollNow a ≤ itemLiveY scrollNow b) :=
    ⟨fun a b => le_total _ _⟩
  haveI htr : IsTrans ItemLayout
      (fun a b => itemLiveY scrollNow a ≤ itemLiveY scrollNow b) :=
    ⟨fun a b c hab hbc => le_trans hab hbc⟩
  exact List.sorted_insertionSort _ items

/-- C3: Hit-Tester algorithm — `hitTest` corrects every stored layout
position for scroll drift; it returns the (unique) list whose corrected
span `[liveY, liveY + height]` contains the finger, and within it the slot
"insert before K" for the topmost non-dragged item K whose corrected
midpoint is strictly greater than the finger's Y (no such item: the
end-of-list sentinel); when no list's corrected span contains the finger it
returns the null list and the empty slot. -/
theorem hitTest_characterization (itemLayouts : List ItemLayout)
    (listLayouts : List ListLayout) (scrollNow : ℚ) (draggedId : Option String)
    (fingerY : ℚ) :
    ((∀ L ∈ listLayouts, ¬ listSpanContains scrollNow L fingerY) →
      hitTest itemLayouts listLayouts scrollNow draggedId fingerY = (none, "")) ∧
    (∀ L ∈ listLayouts, listSpanContains scrollNow L fingerY →
      (∀ L' ∈ listLayouts, listSpanContains scrollNow L' fingerY → L' = L) →
      (hitTest itemLayouts listLayouts scrollNow draggedId fingerY).1 =
        some L.listId ∧
      ((∀ it ∈ itemLayouts.filter (fun it => it.listId = L.listId ∧
          some it.taskId ≠ draggedId), ¬ fingerY < itemMidY scrollNow it) →
        (hitTest itemLayouts listLayouts scrollNow draggedId fingerY).2 =
          "end:" ++ L.listId) ∧
      (∀ K ∈ itemLayouts.filter (fun it => it.listId = L.listId ∧
          some it.taskId ≠ draggedId), fingerY < itemMidY scrollNow K →
        ∃ K', K' ∈ itemLayouts.filter (fun it => it.listId = L.listId ∧
            some it.taskId ≠ draggedId) ∧
          (hitTest itemLayouts listLayouts scrollNow draggedId fingerY).2 =
            K'.taskId ∧
          fingerY < itemMidY scrollNow K' ∧
          ∀ J ∈ itemLayouts.filter (fun it => it.listId = L.listId ∧
              some it.taskId ≠ draggedId), fingerY < itemMidY scrollNow J →
            itemLiveY scrollNow K' ≤ itemLiveY scrollNow J)) := by
  constructor
  · intro h
    unfold hitTest
    rw [findListAt_none h]
  · intro L hL hc huniq
    have hfind := findListAt_unique hL hc huniq
    have hpair : hitTest itemLayouts listLayouts scrollNow draggedId fingerY =
        (some L.listId,
          firstBelowMid ((itemLayouts.filter (fun it => it.listId = L.listId ∧
            some it.taskId ≠ draggedId)).insertionSort
            (fun a b => itemLiveY scrollNow a ≤ itemLiveY scrollNow b))
            scrollNow fingerY L.listId) := by
      unfold hitTest
      rw [hfind]
    refine ⟨by rw [hpair], ?_, ?_⟩
    · intro hnone
      rw [hpair]
      apply firstBelowMid_no_sat
      intro it hit
      exact hnone it (mem_sortItems.mp hit)
    · intro K hK hKsat
      have hKs : K ∈ (itemLayouts.filter (fun it => it.listId = L.listId ∧
          some it.taskId ≠ draggedId)).insertionSort
          (fun a b => itemLiveY scrollNow a ≤ itemLiveY scrollNow b) :=
        mem_sortItems.mpr hK
      obtain ⟨K', h1, h2, h3, h4⟩ := firstBelowMid_min_sat
        (sortItems_liveY_sorted _ scrollNow) hKs hKsat
      refine ⟨K', mem_sortItems.mp h1, by rw [hpair]; exact h2, h3, ?_⟩
      intro J hJ hJsat
      exact h4 J (mem_sortItems.mpr hJ) hJsat

/-- C7 counterexample: with one registered list "L1" spanning [0, 100],
no registered items, and a dragged item whose identifier is literally the
string "end:L1", the hit-test at finger y = 50 resolves the slot to
"end:L1" — the dragged item's own identifier — so "never resolves
targetSlot to X's own identifier" fails for sentinel-aliased ids. -/
theorem hitTest_self_slot_counterexample :
    (hitTest [] [ListLayout.mk "L1" 0 100 0] 0 (some "end:L1") 50).2 =
      "end:L1" := by
  have hspan : listSpanContains 0 (ListLayout.mk "L1" 0 100 0) 50 := by
    unfold listSpanContains livePageY
    norm_num
  unfold hitTest findListAt
  rw [if_pos hspan]
  rfl

/-- C7 (amended): hit-test exclusion — provided the dragged item's
identifier is nonempty and is not the end-of-list sentinel string
`"end:" ++ listId` of any registered list, the hit-tester never resolves
the slot to the dragged item's own identifier: the dragged item's layout
entry is excluded from the candidates, so the slot is another item's
identifier, an end-of-list sentinel, or empty. -/
theorem hitTest_exclusion (itemLayouts : List ItemLayout)
    (listLayouts : List ListLayout) (scrollNow fingerY : ℚ) (x : String)
    (hx1 : x ≠ "")
    (hx2 : ∀ L ∈ listLayouts, x ≠ "end:" ++ L.listId) :
    (hitTest itemLayouts listLayouts scrollNow (some x) fingerY).2 ≠ x := by
  unfold hitTest
  cases hfind : findListAt listLayouts scrollNow fingerY with
  | none =>
      intro h
      exact hx1 h.symm
  | some lid =>
      obtain ⟨L, hL, hLid, _⟩ := findListAt_some_mem hfind
      rcases firstBelowMid_cases ((itemLayouts.filter
          (fun it => it.listId = lid ∧ some it.taskId ≠ some x)).insertionSort
          (fun a b => itemLiveY scrollNow a ≤ itemLiveY scrollNow b))
          scrollNow fingerY lid with hend | ⟨K, hK, heq, _⟩
      · simp only [hend]
        rw [← hLid]
        exact fun h => hx2 L hL h.symm
      · simp only [heq]
        have hKf := mem_sortItems.mp hK
        have := (List.mem_filter.mp hKf).2
        simp only [decide_eq_true_eq] at this
        intro h
        exact this.2 (by rw [h])

/-- C10 counterexample: the collection holds a single task t1 living in
list "C" with order 5; it contains the source task id "t1", yet committing
it "from list A to list B" rewrites t1 (listId becomes "B", order 0)
although t1's list "C" is neither the source nor the target — the claim's
frame clause fails when the source task does not belong to the source
list. -/
theorem executeCommit_frame_counterexample :
    executeCommit [TaskItem.mk "t1" "C" 5 "t" "d" none none]
        "t1" "A" "B" "end:B" none =
      some [TaskItem.mk "t1" "B" 0 "t" "d" none none] ∧
    ("C" : String) ≠ "A" ∧ ("C" : String) ≠ "B" := by
  refine ⟨?_, by decide, by decide⟩
  decide

/-- C2: Unconditional cleanup on gesture teardown — for every complete pan
gesture lifecycle (normal release, platform cancellation while active, or
cancellation before the long press activated), starting from any state in
which scrolling is enabled (the idle invariant), the final state has the
item visible again (opacity 1), the dragged-item identity cleared, and the
scroll container enabled.  When the gesture was active, `onEnd` runs on any
teardown and re-enables scrolling before `onFinalize` restores visibility
and clears the identity; when it never activated, scrolling was never
disabled and `onFinalize` still clears identity and restores visibility. -/
theorem gesture_teardown_cleanup (taskId listId title : String)
    (description : Option String) (measured : Option MeasuredRect)
    (s0 : GState) (moves : List PanEvent) (ending : GestureEnding)
    (h0 : s0.scrollEnabled = true) :
    (runGesture taskId listId title description measured s0 moves ending).selfOpacity
        = 1 ∧
    (runGesture taskId listId title description measured s0 moves
        ending).draggedTaskId = none ∧
    (runGesture taskId listId title description measured s0 moves
        ending).draggedFromListId = none ∧
    (runGesture taskId listId title description measured s0 moves
        ending).scrollEnabled = true := by
  cases ending with
  | cancelledBefore =>
      cases measured with
      | none => exact ⟨rfl, rfl, rfl, h0⟩
      | some m => exact ⟨rfl, rfl, rfl, h0⟩
  | released => exact ⟨rfl, rfl, rfl, rfl⟩
  | cancelledActive => exact ⟨rfl, rfl, rfl, rfl⟩

/-! ### Concrete instances -/

/-- A concrete task used by the concrete instances below. -/
def sampleTask (tid lid : String) (o : Int) : TaskItem :=
  ⟨tid, lid, o, "title", "descr", none, none⟩

/-- A concrete two-list collection: list "A" holds a0, a1, X (orders 0, 1,
2), list "B" holds Y, b1 (orders 0, 1). -/
def sampleTasks : List TaskItem :=
  [sampleTask "a0" "A" 0, sampleTask "a1" "A" 1, sampleTask "X" "A" 2,
   sampleTask "Y" "B" 0, sampleTask "b1" "B" 1]

theorem sampleTasks_dense (L : String) : denseOrders sampleTasks L := by
  by_cases hA : L = "A"
  · subst hA; unfold denseOrders; decide
  · by_cases hB : L = "B"
    · subst hB; unfold denseOrders; decide
    · have hnil : tasksIn sampleTasks L = [] := by
        unfold tasksIn
        rw [List.filter_eq_nil_iff]
        intro a ha
        fin_cases ha <;>
          simp only [sampleTask, decide_eq_true_eq] <;>
          intro h <;> first | exact hA h.symm | exact hB h.symm
      unfold denseOrders ordersIn
      rw [hnil]
      simp [rangeInt]

/-- A concrete idle gesture state (scroll enabled, nothing dragged). -/
def sampleGState : GState :=
  ⟨1, "", false, none, none, 0, 0, 0, 0, 0, 0, "", "", none, "", true, 0, [], []⟩

theorem executeCommit_density_witness :
    (idsOf sampleTasks).Nodup ∧
    ∃ ts', executeCommit sampleTasks "X" "A" "A" "end:A" none = some ts' ∧
      ∀ L, denseOrders ts' L :=
  ⟨by decide, executeCommit_density sampleTasks "X" "A" "A" "end:A" none
    (sampleTask "X" "A" 2) (by decide) (by decide) rfl sampleTasks_dense⟩

theorem gesture_teardown_cleanup_witness :
    sampleGState.scrollEnabled = true ∧
    ((runGesture "tX" "A" "ttl" none none sampleGState []
        GestureEnding.cancelledBefore).selfOpacity = 1 ∧
      (runGesture "tX" "A" "ttl" none none sampleGState []
        GestureEnding.cancelledBefore).draggedTaskId = none ∧
      (runGesture "tX" "A" "ttl" none none sampleGState []
        GestureEnding.cancelledBefore).draggedFromListId = none ∧
      (runGesture "tX" "A" "ttl" none none sampleGState []
        GestureEnding.cancelledBefore).scrollEnabled = true) :=
  ⟨rfl, gesture_teardown_cleanup "tX" "A" "ttl" none none sampleGState []
    GestureEnding.cancelledBefore rfl⟩

theorem hitTest_characterization_witness :
    (hitTest [] [ListLayout.mk "L1" 0 100 0] 0 none 15).1 = some "L1" ∧
    (hitTest [] [ListLayout.mk "L1" 0 100 0] 0 none 15).2 = "end:" ++ "L1" := by
  have h := (hitTest_characterization [] [ListLayout.mk "L1" 0 100 0] 0 none 15).2
    (ListLayout.mk "L1" 0 100 0) (List.mem_singleton.mpr rfl)
    (by norm_num [listSpanContains, livePageY])
    (fun L' hL' _ => List.mem_singleton.mp hL')
  exact ⟨h.1, h.2.1 (by intro it hit; simp at hit)⟩

theorem executeCommit_cross_list_move_witness :
    ∃ ts' X' Y',
      executeCommit sampleTasks "X" "A" "B" "Y" none = some ts' ∧
      (tasksIn ts' "A").length + 1 = (tasksIn sampleTasks "A").length ∧
      (tasksIn ts' "B").length = (tasksIn sampleTasks "B").length + 1 ∧
      denseOrders ts' "A" ∧ denseOrders ts' "B" ∧
      getTask ts' "X" = some X' ∧ getTask ts' "Y" = some Y' ∧
      X'.listId = "B" ∧ Y'.listId = "B" ∧ X'.order + 1 = Y'.order :=
  executeCommit_cross_list_move sampleTasks (sampleTask "X" "A" 2)
    (sampleTask "Y" "B" 0) "A" "B" none (by decide) (by decide) rfl (by decide)
    rfl (by decide) (by decide) (by decide)

theorem executeCommit_stale_slot_fallback_witness :
    ∃ ts' X', executeCommit sampleTasks "X" "A" "B" "zz" none = some ts' ∧
      getTask ts' "X" = some X' ∧ X'.listId = "B" ∧
      X'.order + 1 = ((tasksIn ts' "B").length : Int) ∧
      denseOrders ts' "B" ∧
      ∀ t ∈ tasksIn ts' "B", t.order ≤ X'.order :=
  executeCommit_stale_slot_fallback sampleTasks "X" "A" "B" "zz" none
    (sampleTask "X" "A" 2) (by decide) (by decide) rfl (by decide)

theorem hitTest_exclusion_witness :
    (hitTest [] [ListLayout.mk "L1" 0 100 0] 0 (some "drag1") 50).2 ≠ "drag1" :=
  hitTest_exclusion [] [ListLayout.mk "L1" 0 100 0] 0 50 "drag1" (by decide)
    (by intro L hL; rw [List.mem_singleton.mp hL]; decide)

theorem checkAutoScroll_characterization_witness :
    checkAutoScroll (some (ScrollRect.mk 100 400)) 150 1000 =
      1000 - ((100 : ℚ) + 80 - 150) * (3 / 10) :=
  (checkAutoScroll_characterization (ScrollRect.mk 100 400) 150 1000).1
    (by norm_num)

theorem handleAddTask_initial_order_witness :
    ∃ m : Int,
      ((tasksIn sampleTasks "A").map (fun t => t.order)).min? = some m ∧
      handleAddTask sampleTasks (sampleTask "new" "A" 7) =
        sampleTasks ++ [{ sampleTask "new" "A" 7 with order := m - 1 }] ∧
      ∀ t ∈ tasksIn sampleTasks "A", m - 1 < t.order :=
  handleAddTask_initial_order sampleTasks (sampleTask "new" "A" 7) (by decide)

theorem executeCommit_frame_witness :
    ∃ ts', executeCommit sampleTasks "a1" "A" "B" "end:B" none = some ts' ∧
      idsOf ts' = idsOf sampleTasks ∧
      ∀ t ∈ sampleTasks, t.listId ≠ "A" → t.listId ≠ "B" →
        getTask ts' t.taskId = some t :=
  executeCommit_frame sampleTasks "a1" "A" "B" "end:B" none
    (sampleTask "a1" "A" 1) (by decide) (by decide) rfl
